import Mathlib

/-!
Verification development for the sitemap.js streaming writer / rotation engine.

Shallow embedding of:
- `SitemapIndexStream` and `SitemapAndIndexStream` (from `src/lib/sitemap-index-stream.ts`);
- the single-file writer `SitemapStream`, whose source file is not under `src/`
  (only its tests and its caller are): it is modelled from the spec (section 4.1)
  and pinned by `src/tests/sitemap-stream.test.ts`.

External collaborators (element encoder, URL normalizer, JS `Date`) are modelled
as the pure string builders the spec describes, or taken as parameters.
Items are taken to be already-normalized URL strings (normalization is external).
-/

set_option maxRecDepth 16384

namespace Sitemap

/-- XML declaration, `xmlDec` in the source. -/
def xmlDec : String := "<?xml version=\"1.0\" encoding=\"UTF-8\"?>"

/-- Element encoder `otag` (external collaborator; plain tag building, escaping out of scope). -/
def otag (n : String) : String := "<" ++ n ++ ">"

/-- Element encoder `ctag`. -/
def ctag (n : String) : String := "</" ++ n ++ ">"

/-- Element encoder `element`: a leaf element with text content. -/
def element (n v : String) : String := otag n ++ v ++ ctag n

/-- `stylesheetInclude` from `sitemap-stream.ts` (shape pinned by the tests). -/
def stylesheetInclude (u : String) : String :=
  "<?xml-stylesheet type=\"text/xsl\" href=\"" ++ u ++ "\"?>"

/-- The `xslUrl ? stylesheetInclude(xslUrl) : ''` expression. -/
def stylesheetOf : Option String → String
  | none => ""
  | some u => stylesheetInclude u

/-- Sitemap document preamble: declaration plus `<urlset>` opening tag with the
default namespaces, exactly as pinned by `sitemap-stream.test.ts` (`preamble`). -/
def preambleChunk : String :=
  "<?xml version=\"1.0\" encoding=\"UTF-8\"?><urlset xmlns=\"http://www.sitemaps.org/schemas/sitemap/0.9\" xmlns:news=\"http://www.google.com/schemas/sitemap-news/0.9\" xmlns:xhtml=\"http://www.w3.org/1999/xhtml\" xmlns:image=\"http://www.google.com/schemas/sitemap-image/1.1\" xmlns:video=\"http://www.google.com/schemas/sitemap-video/1.1\">"

/-- `closetag` of a sitemap document. -/
def closetagUrlset : String := "</urlset>"

/-- `sitemapIndexTagStart` from `sitemap-index-stream.ts`. -/
def sitemapIndexTagStart : String :=
  "<sitemapindex xmlns=\"http://www.sitemaps.org/schemas/sitemap/0.9\">"

/-- `closetag` of a sitemap index document (`sitemap-index-stream.ts`). -/
def closetagIndex : String := "</sitemapindex>"

/-- Serialization of one item by the writer, as pinned by the tests:
`<url><loc>`url`</loc></url>` for an already-normalized URL string item. -/
def encodeUrl (u : String) : String := "<url><loc>" ++ u ++ "</loc></url>"

/-- Error taxonomy of a write (from `src/lib/errors` imports and the stream error
codes handled in `sitemap-index-stream.ts` lines 192-202). -/
inductive WriteError where
  | byteLimitExceeded
  | countLimitExceeded
  | writeAfterCloseTag
  | writeAfterEnd
  | streamDestroyed
  deriving DecidableEq, Repr

/-- Configuration errors of the write-once limit setters (spec section 3 and the
`countLimit / byteLimit properties` tests). -/
inductive ConfigError where
  | alreadySet
  | itemsWritten
  deriving DecidableEq, Repr

/-- Modelled from the spec: the single-file writer `SitemapStream`
(`sitemap-stream.ts` is not under `src/`). State per spec section 3 and 4.1:
counters `itemCount` / `byteCount` (bytes pushed downstream, preamble included),
the `wroteCloseTag` flag exposed to collaborators, terminal flags, write-once
limits, and the chunks pushed downstream. -/
structure SitemapStream where
  itemCount : Nat
  byteCount : Nat
  wroteCloseTag : Bool
  ended : Bool
  destroyed : Bool
  countLimit : Option Nat
  byteLimit : Option Nat
  out : List String
  deriving DecidableEq, Repr

/-- A fresh writer as produced by the factory. `byteCount` reserves the closing
tag's bytes from creation: the tests assert `byteCount === 375` directly after
the first accepted item (preamble 325 + item 41 + closing tag 9) and
`byteCount === outputStr.length` after close, so the writer accounts for the
closing tag before it is physically pushed. -/
def freshWriter : SitemapStream :=
  { itemCount := 0, byteCount := closetagUrlset.length, wroteCloseTag := false,
    ended := false, destroyed := false, countLimit := none, byteLimit := none, out := [] }

/-- Total bytes of the chunks pushed downstream. -/
def outBytes (l : List String) : Nat := (l.map String.length).sum

/-- Modelled from the spec: emit the closing tag (its bytes were already
reserved in `byteCount` at creation). -/
def SitemapStream.closeTagNow (st : SitemapStream) : SitemapStream :=
  { st with out := st.out ++ [closetagUrlset],
            wroteCloseTag := true }

/-- Would this write breach `byteLimit`? (spec 4.1 step 2:
`byteCount + preambleIfFirst + encodedLength > byteLimit`). -/
def byteWouldExceed (st : SitemapStream) (u : String) : Bool :=
  match st.byteLimit with
  | none => false
  | some b =>
    decide (b < st.byteCount
              + (if st.itemCount = 0 then preambleChunk.length else 0)
              + (encodeUrl u).length)

/-- Would this write breach `countLimit`? (spec 4.1 step 3: `itemCount + 1 > countLimit`). -/
def countWouldExceed (st : SitemapStream) : Bool :=
  match st.countLimit with
  | none => false
  | some c => decide (c < st.itemCount + 1)

/-- Modelled from the spec: `SitemapStream.write`. Terminal states reject with
the stream error classes pinned by the tests (`ERR_STREAM_DESTROYED` after a
limit failure, `write after end` after a normal `end()`); a limit breach is
rejected before commit and finalizes the writer (closing tag, destroyed);
an accepted item emits the preamble first if it is the first item, then the
item, with exact byte accounting. Returns the updated writer and the error. -/
def SitemapStream.write (st : SitemapStream) (u : String) :
    SitemapStream × Option WriteError :=
  if st.destroyed then (st, some .streamDestroyed)
  else if st.ended then (st, some .writeAfterEnd)
  else if st.wroteCloseTag then (st, some .writeAfterCloseTag)
  else if byteWouldExceed st u then
    ({ st.closeTagNow with destroyed := true }, some .byteLimitExceeded)
  else if countWouldExceed st then
    ({ st.closeTagNow with destroyed := true }, some .countLimitExceeded)
  else
    let st1 := if st.itemCount = 0 then
                 { st with out := st.out ++ [preambleChunk],
                           byteCount := st.byteCount + preambleChunk.length }
               else st
    ({ st1 with out := st1.out ++ [encodeUrl u],
                byteCount := st1.byteCount + (encodeUrl u).length,
                itemCount := st1.itemCount + 1 }, none)

/-- Modelled from the spec: `SitemapStream.end()` — emit the closing tag once
(never twice) and become terminal. -/
def SitemapStream.endStream (st : SitemapStream) : SitemapStream :=
  if st.wroteCloseTag then { st with ended := true }
  else { st.closeTagNow with ended := true }

/-- Modelled from the spec: the `countLimit` setter — write-once, pre-write only
(tests: `cannot set countLimit if items written already` /
`cannot set countLimit if already set`); on error the writer is unchanged. -/
def SitemapStream.setCountLimit (st : SitemapStream) (n : Nat) :
    SitemapStream × Option ConfigError :=
  if 0 < st.itemCount then (st, some .itemsWritten)
  else if st.countLimit.isSome then (st, some .alreadySet)
  else ({ st with countLimit := some n }, none)

/-- Modelled from the spec: the `byteLimit` setter, same write-once discipline. -/
def SitemapStream.setByteLimit (st : SitemapStream) (n : Nat) :
    SitemapStream × Option ConfigError :=
  if 0 < st.itemCount then (st, some .itemsWritten)
  else if st.byteLimit.isSome then (st, some .alreadySet)
  else ({ st with byteLimit := some n }, none)

/-- An entry written to the index stream: a plain location string or a record
with optional `lastmod` (`IndexItem | string` in the source). -/
inductive IndexItem where
  | str (s : String)
  | entry (url : String) (lastmod : Option String)
  deriving DecidableEq, Repr

/-- State of `SitemapIndexStream` (`src/lib/sitemap-index-stream.ts` lines 38-50). -/
structure SitemapIndexStream where
  hasHeadOutput : Bool
  lastmodDateOnly : Bool
  xslUrl : Option String
  out : List String
  deriving DecidableEq, Repr

/-- `new SitemapIndexStream(opts)`. -/
def initIndex (lastmodDateOnly : Bool) (xslUrl : Option String) : SitemapIndexStream :=
  { hasHeadOutput := false, lastmodDateOnly := lastmodDateOnly, xslUrl := xslUrl, out := [] }

/-- Head emission of `SitemapIndexStream._transform` (lines 57-64): push the
declaration, optional stylesheet instruction and index opening tag once. -/
def indexHead (st : SitemapIndexStream) : SitemapIndexStream :=
  if st.hasHeadOutput then st
  else { st with hasHeadOutput := true,
                 out := st.out ++ [xmlDec ++ stylesheetOf st.xslUrl ++ sitemapIndexTagStart] }

/-- `SitemapIndexStream._transform` (lines 52-82). `dateToISO` models the JS
expression `(s) => new Date(s).toISOString()` (external builtin). The
`if (item.lastmod)` truthiness test skips both an absent and an empty string. -/
def SitemapIndexStream.transformStep (dateToISO : String → String)
    (st : SitemapIndexStream) (item : IndexItem) : SitemapIndexStream :=
  let st := indexHead st
  let st := { st with out := st.out ++ [otag "sitemap"] }
  let st :=
    match item with
    | .str s => { st with out := st.out ++ [element "loc" s] }
    | .entry url lm =>
      let st := { st with out := st.out ++ [element "loc" url] }
      match lm with
      | none => st
      | some l =>
        if l = "" then st
        else
          let lastmod := dateToISO l
          { st with out := st.out ++
              [element "lastmod" (if st.lastmodDateOnly then lastmod.take 10 else lastmod)] }
  { st with out := st.out ++ [ctag "sitemap"] }

/-- `SitemapIndexStream._flush` (lines 84-87): push the closing tag. -/
def SitemapIndexStream.flushStep (st : SitemapIndexStream) : SitemapIndexStream :=
  { st with out := st.out ++ [closetagIndex] }

/-- Run a sequence of index entries through `_transform`. -/
def runIndex (dateToISO : String → String) (st : SitemapIndexStream)
    (entries : List IndexItem) : SitemapIndexStream :=
  entries.foldl (fun s e => s.transformStep dateToISO e) st

/-- One writer operation: a `write` or an explicit `end()`. -/
inductive WOp where
  | write (u : String)
  | close
  deriving DecidableEq, Repr

/-- Run a sequence of operations through the single-file writer. -/
def runWriter (st : SitemapStream) (ops : List WOp) : SitemapStream :=
  ops.foldl (fun s op => match op with
    | .write u => (s.write u).1
    | .close => s.endStream) st

/-- Observable actions of the rotation orchestrator during one item's
processing: writes and their outcomes, ending / awaiting the superseded
writer stream, awaiting a shard's physical sink, factory invocations, and
index entry emissions. `awaitedSinkFinished` would correspond to awaiting the
`WriteStream` returned by the factory; `awaitedWriterFinished` corresponds to
`await finishedAsync(this.currentSitemap)` (line 369 of the source). -/
inductive OEvent where
  | writeOk (ord : Nat) (u : String)
  | writeErr (ord : Nat) (e : WriteError)
  | sitemapEnded (ord : Nat)
  | awaitedWriterFinished (ord : Nat)
  | awaitedSinkFinished (ord : Nat)
  | factoryCalled (ord : Nat)
  | indexEntryPushed (loc : String)
  deriving DecidableEq, Repr

/-- Outcome delivered to an item's `TransformCallback`: success, the
`TypeError('resubmit to same sitemap not allowed')` (line 449), or an
unrecovered error (line 457). `none` in the model means the callback was
never invoked within the available fuel. -/
inductive CbRes where
  | ok
  | typeErr
  | fatal (e : WriteError)
  deriving DecidableEq, Repr

/-- State of `SitemapAndIndexStream` (source lines 159-208). The caller-supplied
factory is modelled by a parameter `locOf : Nat → String` giving the public
location for each shard ordinal, together with a fresh writer; `currentOrd` is
the ordinal the current writer was obtained with (factory calls use strictly
increasing ordinals, so it serves as the writer's identity for the
`currentSitemap === sitemapAtStart` comparison). `closedShards` is ghost
bookkeeping recording each superseded writer verbatim at the moment it was
replaced. `flushDone` records finalize callbacks that were completed
(`SitemapIndexStream._flush` is the only place that completes one).
`pipelineFinished` models whether the current shard's physical sink has already
emitted its `finish` event. -/
structure SitemapAndIndexStream where
  itemCountTotal : Nat
  sitemapCount : Nat
  currentOrd : Nat
  current : SitemapStream
  idxItem : String
  countLimit : Nat
  byteLimit : Nat
  index : SitemapIndexStream
  closedShards : List (Nat × SitemapStream)
  pendingWrites : Nat
  pendingFlushCallbacks : List Nat
  flushDone : List Nat
  pipelineFinished : Bool
  deriving DecidableEq, Repr

/-- The constructor (lines 180-208): counters at zero, one shard obtained from
the factory at ordinal 0, resolved limits applied to it through the write-once
setters (`countLimit` then `byteLimit`), default index options. -/
def initOrch (locOf : Nat → String) (C B : Nat) : SitemapAndIndexStream :=
  let w := ((freshWriter.setCountLimit C).1.setByteLimit B).1
  { itemCountTotal := 0, sitemapCount := 0, currentOrd := 0, current := w,
    idxItem := locOf 0, countLimit := C, byteLimit := B,
    index := initIndex false none, closedShards := [],
    pendingWrites := 0, pendingFlushCallbacks := [], flushDone := [],
    pipelineFinished := false }

/-- The rotation block of `_transform` (lines 367-427): end and await the
current writer stream only if it is not already destroyed; obtain the next
shard from the factory at `sitemapCount`; apply the limits (`byteLimit` then
`countLimit`); write the new shard's index entry through the parent transform;
then increment `sitemapCount`. The superseded writer is recorded in the ghost
ledger. The index entry is a plain location string, so the date conversion
function passed to the parent transform is never consulted. -/
def rotateShard (locOf : Nat → String) (st : SitemapAndIndexStream) :
    SitemapAndIndexStream × List OEvent :=
  let p := if st.current.destroyed then (st, ([] : List OEvent))
           else ({ st with current := st.current.endStream },
                 [OEvent.sitemapEnded st.currentOrd,
                  OEvent.awaitedWriterFinished st.currentOrd])
  let st := p.1
  let newOrd := st.sitemapCount
  let fresh := ((freshWriter.setByteLimit st.byteLimit).1.setCountLimit st.countLimit).1
  let st := { st with
    closedShards := st.closedShards ++ [(st.currentOrd, st.current)],
    currentOrd := newOrd, current := fresh, idxItem := locOf newOrd,
    pipelineFinished := false }
  let st := { st with index := st.index.transformStep (fun s => s) (.str st.idxItem) }
  let st := { st with sitemapCount := st.sitemapCount + 1 }
  (st, p.2 ++ [OEvent.factoryCalled newOrd, OEvent.indexEntryPushed (locOf newOrd)])

/-- Limit errors trigger rotation (lines 354-357). -/
def isLimitErr : WriteError → Bool
  | .byteLimitExceeded => true
  | .countLimitExceeded => true
  | _ => false

/-- Write-after-terminal errors (lines 431-435). -/
def isTerminalErr : WriteError → Bool
  | .writeAfterCloseTag => true
  | .writeAfterEnd => true
  | .streamDestroyed => true
  | _ => false

mutual

/-- `doTheFlush` (lines 499-546): take the queued finalize callbacks, reset the
queue, register `onFinish` on the current shard's physical sink, and end the
current writer stream. The sink's `finish` event fires only if it has not fired
before; when it fires, `onFinish` runs `this._flush(cb)` for each taken
callback — dynamic dispatch resolves `this._flush` to the overriding
`SitemapAndIndexStream._flush` (the class overrides `_flush`), not to
`SitemapIndexStream._flush`. Fuel bounds the resulting mutual recursion. -/
def doTheFlushM : Nat → SitemapAndIndexStream → SitemapAndIndexStream
  | 0, st => st
  | fuel + 1, st =>
    let callbacks := st.pendingFlushCallbacks
    let st := { st with pendingFlushCallbacks := [] }
    let st := { st with current := st.current.endStream }
    if st.pipelineFinished then st
    else
      let st := { st with pipelineFinished := true }
      callbacks.foldl (fun s cb => flushM fuel s cb) st

/-- `SitemapAndIndexStream._flush` (lines 483-497): queue the callback; if no
writes are pending and nothing was queued before, also start `doTheFlush`. -/
def flushM : Nat → SitemapAndIndexStream → Nat → SitemapAndIndexStream
  | 0, st, _ => st
  | fuel + 1, st, cb =>
    if 0 < st.pendingWrites ∨ st.pendingFlushCallbacks ≠ [] then
      { st with pendingFlushCallbacks := st.pendingFlushCallbacks ++ [cb] }
    else
      doTheFlushM fuel { st with pendingFlushCallbacks := st.pendingFlushCallbacks ++ [cb] }

end

/-- One iteration of the `while (true)` retry loop of `_transform`
(lines 323-460): when this is the first item ever, increment `sitemapCount`;
attempt the write on the current writer; on success push the current shard's
index entry if this is the first item ever, and deliver success; on a limit
error rotate and continue the loop; on a write-after-terminal error deliver a
type error when the current shard is still the one from the start of this
item's processing, otherwise continue the loop to retry on the new current
shard; any other error is delivered unrecovered. `Sum.inl` is a loop exit with
the events of this iteration and the callback outcome; `Sum.inr` continues. -/
def loopIter (locOf : Nat → String) (st : SitemapAndIndexStream) (item : String)
    (startOrd : Nat) :
    (SitemapAndIndexStream × List OEvent × CbRes) ⊕ (SitemapAndIndexStream × List OEvent) :=
  let st := if st.itemCountTotal = 1 then
              { st with sitemapCount := st.sitemapCount + 1 } else st
  let w := st.current.write item
  match w.2 with
  | none =>
    let st := { st with current := w.1 }
    if st.itemCountTotal = 1 then
      let st1 := { st with index := st.index.transformStep (fun s => s) (.str st.idxItem) }
      .inl (st1, [OEvent.writeOk st.currentOrd item, OEvent.indexEntryPushed st.idxItem],
            .ok)
    else
      .inl (st, [OEvent.writeOk st.currentOrd item], .ok)
  | some e =>
    let st := { st with current := w.1 }
    let errEv := [OEvent.writeErr st.currentOrd e]
    if isLimitErr e then
      let r := rotateShard locOf st
      .inr (r.1, errEv ++ r.2)
    else if isTerminalErr e then
      if st.currentOrd = startOrd then .inl (st, errEv, .typeErr)
      else .inr (st, errEv)
    else .inl (st, errEv, .fatal e)

/-- The retry loop of `_transform`, processed item-by-item under the
single-writer discipline of spec section 5; the unbounded `while (true)` of the
source is bounded by fuel, and `none` as the result means the callback was not
reached within the fuel. -/
def processItemLoop (locOf : Nat → String) :
    Nat → SitemapAndIndexStream → String → Nat →
    SitemapAndIndexStream × List OEvent × Option CbRes
  | 0, st, _, _ => (st, [], none)
  | fuel + 1, st, item, startOrd =>
    match loopIter locOf st item startOrd with
    | .inl r => (r.1, r.2.1, some r.2.2)
    | .inr c =>
      let rec2 := processItemLoop locOf fuel c.1 item startOrd
      (rec2.1, c.2 ++ rec2.2.1, rec2.2.2)

/-- `_transform` for one item (lines 287-481): mark one write in flight,
increment the total item counter, remember the shard that is current at the
start, run the retry loop, then (the `finally` block) decrement the in-flight
counter and start `doTheFlush` if it reached zero with finalize callbacks
queued. -/
def processItem (locOf : Nat → String) (fuel : Nat) (st : SitemapAndIndexStream)
    (item : String) : SitemapAndIndexStream × List OEvent × Option CbRes :=
  let st := { st with pendingWrites := st.pendingWrites + 1 }
  let st := { st with itemCountTotal := st.itemCountTotal + 1 }
  let startOrd := st.currentOrd
  let r := processItemLoop locOf fuel st item startOrd
  let st := { r.1 with pendingWrites := r.1.pendingWrites - 1 }
  let st := if st.pendingWrites = 0 && !st.pendingFlushCallbacks.isEmpty then
              doTheFlushM fuel st else st
  (st, r.2.1, r.2.2)

/-- Feed a list of items through `_transform`, collecting each item's events
and callback outcome. -/
def runOrch (locOf : Nat → String) (fuel C B : Nat) (items : List String) :
    SitemapAndIndexStream × List (List OEvent × Option CbRes) :=
  items.foldl (fun acc it =>
      let r := processItem locOf fuel acc.1 it
      (r.1, acc.2 ++ [(r.2.1, r.2.2)]))
    (initOrch locOf C B, [])

/-! ### Closed forms for a run under the countLimit regime

The following definitions give, as a function of the inputs, the state and the
event traces of a `SitemapAndIndexStream` run in which `countLimit = C ≥ 1` and
`byteLimit` is large enough never to bind. They are proof devices used to
characterize `runOrch`; the theorems below establish the characterization. -/

/-- Sum of the encoded lengths of a list of items. -/
def encSum (l : List String) : Nat := (l.map (fun u => (encodeUrl u).length)).sum

/-- A fresh writer with both limits applied. -/
def limitedWriter (C B : Nat) : SitemapStream :=
  { itemCount := 0, byteCount := closetagUrlset.length, wroteCloseTag := false,
    ended := false, destroyed := false, countLimit := some C, byteLimit := some B,
    out := [] }

/-- The writer state of a shard currently holding the items `sl` (nonempty). -/
def openWriter (C B : Nat) (sl : List String) : SitemapStream :=
  { itemCount := sl.length,
    byteCount := closetagUrlset.length + preambleChunk.length + encSum sl,
    wroteCloseTag := false, ended := false, destroyed := false,
    countLimit := some C, byteLimit := some B,
    out := preambleChunk :: sl.map encodeUrl }

/-- The writer state of a shard finalized by a count-limit rejection after
holding the items `sl`. -/
def closedWriter (C B : Nat) (sl : List String) : SitemapStream :=
  { itemCount := sl.length,
    byteCount := closetagUrlset.length + preambleChunk.length + encSum sl,
    wroteCloseTag := true, ended := false, destroyed := true,
    countLimit := some C, byteLimit := some B,
    out := preambleChunk :: sl.map encodeUrl ++ [closetagUrlset] }

/-- Items of shard `j` (0-based): input positions `[j*C, j*C + C)`. -/
def sliceC (items : List String) (C j : Nat) : List String :=
  (items.drop (j * C)).take C

/-- Index entry chunks for shards `0 .. m-1`, in creation order. -/
def indexChunksFor (locOf : Nat → String) (m : Nat) : List String :=
  ((List.range m).map (fun j => [otag "sitemap", element "loc" (locOf j), ctag "sitemap"])).flatten

/-- Index stream state after announcing shards `0 .. m-1` (`m ≥ 1`). -/
def specIndex (locOf : Nat → String) (m : Nat) : SitemapIndexStream :=
  { hasHeadOutput := true, lastmodDateOnly := false, xslUrl := none,
    out := (xmlDec ++ stylesheetOf none ++ sitemapIndexTagStart) :: indexChunksFor locOf m }

/-- Items held by the current shard after `k ≥ 1` items were processed. -/
def curSliceSpec (items : List String) (C k : Nat) : List String :=
  (items.drop (((k - 1) / C) * C)).take (k - ((k - 1) / C) * C)

/-- Closed form of the orchestrator state after processing `k` items. -/
def specOrch (locOf : Nat → String) (C B : Nat) (items : List String) (k : Nat) :
    SitemapAndIndexStream :=
  if k = 0 then initOrch locOf C B else
  let ord := (k - 1) / C
  { itemCountTotal := k, sitemapCount := ord + 1, currentOrd := ord,
    current := openWriter C B (curSliceSpec items C k),
    idxItem := locOf ord, countLimit := C, byteLimit := B,
    index := specIndex locOf (ord + 1),
    closedShards := (List.range ord).map (fun j => (j, closedWriter C B (sliceC items C j))),
    pendingWrites := 0, pendingFlushCallbacks := [], flushDone := [],
    pipelineFinished := false }

/-- Closed form of the event trace of the `k`-th item (1-based). -/
def specTrace (locOf : Nat → String) (C : Nat) (items : List String) (k : Nat) :
    List OEvent :=
  let u := items.getD (k - 1) ""
  let ord := (k - 1) / C
  if k = 1 then [OEvent.writeOk 0 u, OEvent.indexEntryPushed (locOf 0)]
  else if C ∣ (k - 1) then
    [OEvent.writeErr (ord - 1) .countLimitExceeded, OEvent.factoryCalled ord,
     OEvent.indexEntryPushed (locOf ord), OEvent.writeOk ord u]
  else [OEvent.writeOk ord u]

theorem transformStep_str_head (d : String → String) (st : SitemapIndexStream)
    (s : String) (hh : st.hasHeadOutput = true) :
    st.transformStep d (.str s)
      = { st with out := st.out ++ [otag "sitemap", element "loc" s, ctag "sitemap"] } := by
  simp [SitemapIndexStream.transformStep, indexHead, hh]

/-- Closed form of the per-item results of a run of `k` items. -/
def specTraces (locOf : Nat → String) (C : Nat) (items : List String) (k : Nat) :
    List (List OEvent × Option CbRes) :=
  (List.range k).map (fun i => (specTrace locOf C items (i + 1), some CbRes.ok))

/-! ### Arithmetic of shard ordinals -/

theorem mod_succ_lt_of_not_dvd {C k : Nat} (hC : 0 < C) (hk : 1 ≤ k)
    (h : ¬ C ∣ k) : (k - 1) % C + 1 < C := by
  have hqr := Nat.div_add_mod (k - 1) C
  have hr : (k - 1) % C < C := Nat.mod_lt _ hC
  rcases Nat.lt_or_ge ((k - 1) % C + 1) C with hlt | hge
  · exact hlt
  · exfalso
    have heq : (k - 1) % C + 1 = C := by omega
    apply h
    refine ⟨(k - 1) / C + 1, ?_⟩
    have : C * ((k - 1) / C) + (k - 1) % C = k - 1 := hqr
    calc k = C * ((k - 1) / C) + ((k - 1) % C + 1) := by omega
    _ = C * ((k - 1) / C) + C := by rw [heq]
    _ = C * ((k - 1) / C + 1) := by ring

theorem mod_succ_eq_of_dvd {C k : Nat} (hC : 0 < C) (hk : 1 ≤ k)
    (h : C ∣ k) : (k - 1) % C + 1 = C := by
  have hqr := Nat.div_add_mod (k - 1) C
  have hr : (k - 1) % C < C := Nat.mod_lt _ hC
  rcases h with ⟨m, hm⟩
  rcases Nat.lt_or_ge ((k - 1) % C + 1) C with hlt | hge
  · exfalso
    have hk2 : k % C = ((k - 1) % C + 1) % C := by
      conv_lhs => rw [show k = C * ((k - 1) / C) + ((k - 1) % C + 1) by omega]
      rw [Nat.mul_add_mod]
    have h0 : k % C = 0 := by rw [hm]; exact Nat.mul_mod_right C m
    rw [Nat.mod_eq_of_lt hlt] at hk2
    omega
  · omega

theorem div_succ_of_not_dvd {C k : Nat} (hC : 0 < C) (hk : 1 ≤ k)
    (h : ¬ C ∣ k) : k / C = (k - 1) / C := by
  have hqr := Nat.div_add_mod (k - 1) C
  have hlt := mod_succ_lt_of_not_dvd hC hk h
  conv_lhs => rw [show k = C * ((k - 1) / C) + ((k - 1) % C + 1) by omega]
  rw [Nat.mul_add_div hC, Nat.div_eq_of_lt hlt, Nat.add_zero]

theorem div_succ_of_dvd {C k : Nat} (hC : 0 < C) (hk : 1 ≤ k)
    (h : C ∣ k) : k / C = (k - 1) / C + 1 ∧ ((k - 1) / C + 1) * C = k := by
  have hqr := Nat.div_add_mod (k - 1) C
  have heq := mod_succ_eq_of_dvd hC hk h
  have hk2 : k = C * ((k - 1) / C + 1) := by
    have : C * ((k - 1) / C) + (k - 1) % C = k - 1 := hqr
    calc k = C * ((k - 1) / C) + ((k - 1) % C + 1) := by omega
    _ = C * ((k - 1) / C) + C := by rw [heq]
    _ = C * ((k - 1) / C + 1) := by ring
  constructor
  · conv_lhs => rw [hk2]
    exact Nat.mul_div_cancel_left _ hC
  · rw [Nat.mul_comm]
    exact hk2.symm

theorem ord_mul_le {C k : Nat} (hC : 0 < C) (hk : 1 ≤ k) :
    ((k - 1) / C) * C ≤ k - 1 ∧ k - ((k - 1) / C) * C = (k - 1) % C + 1 := by
  have hqr := Nat.div_add_mod (k - 1) C
  have hr : (k - 1) % C < C := Nat.mod_lt _ hC
  have hcomm : ((k - 1) / C) * C = C * ((k - 1) / C) := Nat.mul_comm _ _
  omega

/-! ### Sums of encoded lengths -/

theorem encSum_append (a b : List String) : encSum (a ++ b) = encSum a + encSum b := by
  simp [encSum]

theorem encSum_take_le (l : List String) (n : Nat) : encSum (l.take n) ≤ encSum l := by
  conv_rhs => rw [← List.take_append_drop n l]
  rw [encSum_append]
  omega

theorem encSum_drop_le (l : List String) (n : Nat) : encSum (l.drop n) ≤ encSum l := by
  conv_rhs => rw [← List.take_append_drop n l]
  rw [encSum_append]
  omega

theorem encSum_segment_le (l : List String) (a m : Nat) :
    encSum ((l.drop a).take m) ≤ encSum l :=
  le_trans (encSum_take_le _ m) (encSum_drop_le l a)

/-! ### List stepping -/

theorem drop_take_snoc (l : List String) (a m : Nat) (h : a + m < l.length) :
    (l.drop a).take m ++ [l.getD (a + m) ""] = (l.drop a).take (m + 1) := by
  have h2 : (l.drop a)[m]? = some l[a + m] := by
    rw [List.getElem?_drop, List.getElem?_eq_getElem h]
  rw [List.take_succ, h2]
  rw [List.getD_eq_getElem?_getD, List.getElem?_eq_getElem h]
  rfl

theorem indexChunksFor_succ (locOf : Nat → String) (m : Nat) :
    indexChunksFor locOf (m + 1)
      = indexChunksFor locOf m
        ++ [otag "sitemap", element "loc" (locOf m), ctag "sitemap"] := by
  simp [indexChunksFor, List.range_succ]

theorem take_one_getD (l : List String) (h : 0 < l.length) :
    l.take 1 = [l.getD 0 ""] := by
  cases l with
  | nil => simp at h
  | cons a t => simp [List.getD]

theorem drop_take_one (l : List String) (k : Nat) (h : k < l.length) :
    (l.drop k).take 1 = [l.getD k ""] := by
  have h' : 0 < (l.drop k).length := by
    simp only [List.length_drop]
    omega
  rw [take_one_getD _ h']
  congr 1
  rw [List.getD_eq_getElem?_getD, List.getD_eq_getElem?_getD, List.getElem?_drop,
    Nat.add_zero]

theorem encGetD_le (l : List String) (k : Nat) (hk : k < l.length) :
    (encodeUrl (l.getD k "")).length ≤ encSum l := by
  have h1 : encSum ((l.drop k).take 1) ≤ encSum l := encSum_segment_le l k 1
  rw [drop_take_one l k hk] at h1
  simpa [encSum] using h1

theorem getD_eq_get (l : List String) (k : Nat) (h : k < l.length) :
    l.getD k "" = l.get ⟨k, h⟩ := by
  rw [List.getD_eq_getElem?_getD, List.getElem?_eq_getElem h]
  rfl

theorem curSlice_length (items : List String) (C k : Nat) (hC : 0 < C)
    (hk1 : 1 ≤ k) (hkL : k ≤ items.length) :
    (curSliceSpec items C k).length = (k - 1) % C + 1 := by
  have h := ord_mul_le (C := C) (k := k) hC hk1
  simp only [curSliceSpec, List.length_take, List.length_drop]
  omega

theorem curSlice_snoc (items : List String) (C k : Nat) (hC : 0 < C)
    (hk1 : 1 ≤ k) (hkL : k < items.length) (hnd : ¬ C ∣ k) :
    curSliceSpec items C k ++ [items.getD k ""] = curSliceSpec items C (k + 1) := by
  have h := ord_mul_le (C := C) (k := k) hC hk1
  have hdiv := div_succ_of_not_dvd hC hk1 hnd
  have hsum : ((k - 1) / C) * C + (k - ((k - 1) / C) * C) = k := by omega
  have hlt : ((k - 1) / C) * C + (k - ((k - 1) / C) * C) < items.length := by omega
  have key := drop_take_snoc items (((k - 1) / C) * C) (k - ((k - 1) / C) * C) hlt
  simp only [hsum] at key
  simp only [curSliceSpec, Nat.add_sub_cancel, hdiv]
  rw [key]
  congr 1
  omega

theorem curSlice_full (items : List String) (C k : Nat) (hC : 0 < C)
    (hk1 : 1 ≤ k) (hd : C ∣ k) :
    curSliceSpec items C k = sliceC items C ((k - 1) / C) := by
  have h := ord_mul_le (C := C) (k := k) hC hk1
  have heq := mod_succ_eq_of_dvd hC hk1 hd
  simp only [curSliceSpec, sliceC]
  congr 1
  omega

theorem curSlice_new (items : List String) (C k : Nat) (hC : 0 < C)
    (hk1 : 1 ≤ k) (hkL : k < items.length) (hd : C ∣ k) :
    curSliceSpec items C (k + 1) = [items.getD k ""] := by
  have hdiv := div_succ_of_dvd hC hk1 hd
  simp only [curSliceSpec, Nat.add_sub_cancel, hdiv.1, hdiv.2]
  have h2 : k + 1 - k = 1 := by omega
  rw [h2]
  exact drop_take_one items k hkL

theorem encCur_snoc_le (items : List String) (C k : Nat) (hC : 0 < C)
    (hk1 : 1 ≤ k) (hkL : k < items.length) :
    encSum (curSliceSpec items C k) + (encodeUrl (items.getD k "")).length
      ≤ encSum items := by
  have h := ord_mul_le (C := C) (k := k) hC hk1
  have hsum : ((k - 1) / C) * C + (k - ((k - 1) / C) * C) = k := by omega
  have hlt : ((k - 1) / C) * C + (k - ((k - 1) / C) * C) < items.length := by omega
  have hsn := drop_take_snoc items (((k - 1) / C) * C) (k - ((k - 1) / C) * C) hlt
  simp only [hsum] at hsn
  have hseg := encSum_segment_le items (((k - 1) / C) * C) ((k - ((k - 1) / C) * C) + 1)
  rw [← hsn, encSum_append] at hseg
  simp only [curSliceSpec]
  simp [encSum] at hseg ⊢
  omega

/-! ### The writer on the states arising in a countLimit-bounded run -/

theorem initOrch_writer (C B : Nat) :
    ((freshWriter.setCountLimit C).1.setByteLimit B).1 = limitedWriter C B := rfl

theorem rotate_writer (C B : Nat) :
    ((freshWriter.setByteLimit B).1.setCountLimit C).1 = limitedWriter C B := rfl

/-! ### Characterizations of one loop iteration -/

theorem loopIter_ok (locOf : Nat → String) (st : SitemapAndIndexStream)
    (item : String) (startOrd : Nat) (w : SitemapStream)
    (h1 : st.itemCountTotal ≠ 1) (hw : st.current.write item = (w, none)) :
    loopIter locOf st item startOrd
      = .inl ({ st with current := w }, [OEvent.writeOk st.currentOrd item], .ok) := by
  simp only [loopIter, if_neg h1, hw]

theorem loopIter_first_ok (locOf : Nat → String) (st : SitemapAndIndexStream)
    (item : String) (startOrd : Nat) (w : SitemapStream)
    (h1 : st.itemCountTotal = 1) (hw : st.current.write item = (w, none)) :
    loopIter locOf st item startOrd
      = .inl ({ st with sitemapCount := st.sitemapCount + 1, current := w,
                        index := st.index.transformStep (fun s => s) (.str st.idxItem) },
              [OEvent.writeOk st.currentOrd item, OEvent.indexEntryPushed st.idxItem],
              .ok) := by
  simp only [loopIter, if_pos h1, hw]

theorem loopIter_limit (locOf : Nat → String) (st : SitemapAndIndexStream)
    (item : String) (startOrd : Nat) (w : SitemapStream) (e : WriteError)
    (h1 : st.itemCountTotal ≠ 1) (hw : st.current.write item = (w, some e))
    (he : isLimitErr e = true) :
    loopIter locOf st item startOrd
      = .inr ((rotateShard locOf { st with current := w }).1,
              OEvent.writeErr st.currentOrd e :: (rotateShard locOf { st with current := w }).2) := by
  simp only [loopIter, if_neg h1, hw, he]
  simp

theorem loopIter_limit_first (locOf : Nat → String) (st : SitemapAndIndexStream)
    (item : String) (startOrd : Nat) (w : SitemapStream) (e : WriteError)
    (h1 : st.itemCountTotal = 1) (hw : st.current.write item = (w, some e))
    (he : isLimitErr e = true) :
    loopIter locOf st item startOrd
      = .inr ((rotateShard locOf
                 { st with sitemapCount := st.sitemapCount + 1, current := w }).1,
              OEvent.writeErr st.currentOrd e
                :: (rotateShard locOf
                      { st with sitemapCount := st.sitemapCount + 1, current := w }).2) := by
  simp only [loopIter, if_pos h1, hw, he]
  simp [h1]

theorem loopIter_terminal (locOf : Nat → String) (st : SitemapAndIndexStream)
    (item : String) (startOrd : Nat) (w : SitemapStream) (e : WriteError)
    (h1 : st.itemCountTotal ≠ 1) (hw : st.current.write item = (w, some e))
    (hlim : isLimitErr e = false) (hterm : isTerminalErr e = true) :
    loopIter locOf st item startOrd
      = if st.currentOrd = startOrd then
          .inl ({ st with current := w }, [OEvent.writeErr st.currentOrd e], .typeErr)
        else .inr ({ st with current := w }, [OEvent.writeErr st.currentOrd e]) := by
  simp only [loopIter, if_neg h1, hw, hlim, hterm]
  simp

theorem rotateShard_destroyed (locOf : Nat → String) (st : SitemapAndIndexStream)
    (h : st.current.destroyed = true) :
    rotateShard locOf st
      = ({ st with
            closedShards := st.closedShards ++ [(st.currentOrd, st.current)],
            currentOrd := st.sitemapCount,
            current := limitedWriter st.countLimit st.byteLimit,
            idxItem := locOf st.sitemapCount,
            pipelineFinished := false,
            index := st.index.transformStep (fun s => s) (.str (locOf st.sitemapCount)),
            sitemapCount := st.sitemapCount + 1 },
         [OEvent.factoryCalled st.sitemapCount,
          OEvent.indexEntryPushed (locOf st.sitemapCount)]) := by
  simp only [rotateShard, h, if_pos, rotate_writer]
  simp

theorem processItemLoop_exit (locOf : Nat → String) (fuel : Nat)
    (st : SitemapAndIndexStream) (item : String) (s0 : Nat)
    (r : SitemapAndIndexStream × List OEvent × CbRes)
    (h : loopIter locOf st item s0 = .inl r) :
    processItemLoop locOf (fuel + 1) st item s0 = (r.1, r.2.1, some r.2.2) := by
  simp only [processItemLoop, h]

theorem processItemLoop_continue (locOf : Nat → String) (fuel : Nat)
    (st : SitemapAndIndexStream) (item : String) (s0 : Nat)
    (c : SitemapAndIndexStream × List OEvent)
    (h : loopIter locOf st item s0 = .inr c) :
    processItemLoop locOf (fuel + 1) st item s0
      = ((processItemLoop locOf fuel c.1 item s0).1,
         c.2 ++ (processItemLoop locOf fuel c.1 item s0).2.1,
         (processItemLoop locOf fuel c.1 item s0).2.2) := by
  simp only [processItemLoop, h]

theorem processItem_eq (locOf : Nat → String) (fuel : Nat)
    (st : SitemapAndIndexStream) (item : String) :
    processItem locOf fuel st item
      = (let r := processItemLoop locOf fuel
                    { st with pendingWrites := st.pendingWrites + 1,
                              itemCountTotal := st.itemCountTotal + 1 }
                    item st.currentOrd
         let st1 := { r.1 with pendingWrites := r.1.pendingWrites - 1 }
         let st2 := if st1.pendingWrites = 0 && !st1.pendingFlushCallbacks.isEmpty then
                      doTheFlushM fuel st1 else st1
         (st2, r.2.1, r.2.2)) := rfl


theorem write_fresh_ok (C B : Nat) (u : String) (hC : 0 < C)
    (hB : closetagUrlset.length + preambleChunk.length + (encodeUrl u).length ≤ B) :
    (limitedWriter C B).write u = (openWriter C B [u], none) := by
  have hbz : byteWouldExceed (limitedWriter C B) u = false := by
    simp only [byteWouldExceed, limitedWriter]
    simp [decide_eq_false_iff_not]
    omega
  have hcz : countWouldExceed (limitedWriter C B) = false := by
    simp only [countWouldExceed, limitedWriter, decide_eq_false_iff_not]
    omega
  simp only [SitemapStream.write, hbz, hcz]
  simp [limitedWriter, openWriter, encSum]

theorem write_open_ok (C B : Nat) (sl : List String) (u : String)
    (hsl : sl.length ≠ 0) (hcount : sl.length + 1 ≤ C)
    (hB : closetagUrlset.length + preambleChunk.length + encSum sl
            + (encodeUrl u).length ≤ B) :
    (openWriter C B sl).write u = (openWriter C B (sl ++ [u]), none) := by
  have hbz : byteWouldExceed (openWriter C B sl) u = false := by
    simp only [byteWouldExceed, openWriter]
    simp only [if_neg hsl, decide_eq_false_iff_not]
    omega
  have hcz : countWouldExceed (openWriter C B sl) = false := by
    simp only [countWouldExceed, openWriter, decide_eq_false_iff_not]
    omega
  simp only [SitemapStream.write, hbz, hcz]
  simp only [openWriter]
  simp [hsl, encSum_append, List.map_append, encSum]
  omega

theorem write_open_reject (C B : Nat) (sl : List String) (u : String)
    (hsl : sl.length ≠ 0) (hcount : sl.length = C)
    (hB : closetagUrlset.length + preambleChunk.length + encSum sl
            + (encodeUrl u).length ≤ B) :
    (openWriter C B sl).write u = (closedWriter C B sl, some .countLimitExceeded) := by
  have hbz : byteWouldExceed (openWriter C B sl) u = false := by
    simp only [byteWouldExceed, openWriter]
    simp only [if_neg hsl, decide_eq_false_iff_not]
    omega
  have hcz : countWouldExceed (openWriter C B sl) = true := by
    simp only [countWouldExceed, openWriter, decide_eq_true_eq]
    omega
  simp only [SitemapStream.write, hbz, hcz]
  simp [openWriter, closedWriter, SitemapStream.closeTagNow, hcount]

/-! ### The three shapes of an item's processing under the countLimit regime -/

theorem processItem_step_first (locOf : Nat → String) (C B : Nat) (items : List String)
    (hC : 0 < C)
    (hB : closetagUrlset.length + preambleChunk.length + encSum items ≤ B)
    (h0 : 0 < items.length) (fuel : Nat) :
    processItem locOf (fuel + 1) (specOrch locOf C B items 0) (items.getD 0 "")
      = (specOrch locOf C B items 1, specTrace locOf C items 1, some .ok) := by
  have hw : (limitedWriter C B).write (items.getD 0 "") =
      (openWriter C B [items.getD 0 ""], none) := by
    apply write_fresh_ok C B _ hC
    have := encGetD_le items 0 h0
    omega
  rw [processItem_eq]
  simp only [specOrch, if_pos, initOrch, initOrch_writer]
  rw [processItemLoop_exit _ _ _ _ _ _ (loopIter_first_ok _ _ _ _ _ rfl hw)]
  have ht1 : items.take 1 = [items.getD 0 ""] := take_one_getD items h0
  simp [specTrace, specIndex, indexChunksFor, SitemapIndexStream.transformStep,
    indexHead, initIndex, openWriter, curSliceSpec, List.range_succ, List.range_zero, ht1,
    ← List.map_take, List.getD, h0]

theorem processItem_step_same (locOf : Nat → String) (C B : Nat) (items : List String)
    (k fuel : Nat) (hC : 0 < C)
    (hB : closetagUrlset.length + preambleChunk.length + encSum items ≤ B)
    (hk1 : 1 ≤ k) (hkL : k < items.length) (hnd : ¬ C ∣ k) :
    processItem locOf (fuel + 1) (specOrch locOf C B items k) (items.getD k "")
      = (specOrch locOf C B items (k + 1), specTrace locOf C items (k + 1), some .ok) := by
  have hlen : (curSliceSpec items C k).length = (k - 1) % C + 1 :=
    curSlice_length items C k hC hk1 (le_of_lt hkL)
  have hrlt : (k - 1) % C + 1 < C := mod_succ_lt_of_not_dvd hC hk1 hnd
  have hbound := encCur_snoc_le items C k hC hk1 hkL
  have hw : (openWriter C B (curSliceSpec items C k)).write (items.getD k "") =
      (openWriter C B (curSliceSpec items C k ++ [items.getD k ""]), none) := by
    apply write_open_ok C B _ _ (by omega) (by omega) (by omega)
  have hk0 : ¬ (k = 0) := by omega
  have hkk0 : ¬ (k + 1 = 0) := by omega
  have hk11 : ¬ (k + 1 = 1) := by omega
  have hdiv := div_succ_of_not_dvd hC hk1 hnd
  have hsnoc := curSlice_snoc items C k hC hk1 hkL hnd
  rw [processItem_eq]
  simp only [specOrch, if_neg hk0]
  rw [processItemLoop_exit _ _ _ _ _ _ (loopIter_ok _ _ _ _ _ hk11 hw)]
  simp [specOrch, specTrace, hk0, hk11, hkk0, hdiv, ← hsnoc, hnd]

theorem processItem_step_rot (locOf : Nat → String) (C B : Nat) (items : List String)
    (k fuel : Nat) (hC : 0 < C)
    (hB : closetagUrlset.length + preambleChunk.length + encSum items ≤ B)
    (hk1 : 1 ≤ k) (hkL : k < items.length) (hd : C ∣ k) :
    processItem locOf (fuel + 2) (specOrch locOf C B items k) (items.getD k "")
      = (specOrch locOf C B items (k + 1), specTrace locOf C items (k + 1), some .ok) := by
  have hlen : (curSliceSpec items C k).length = (k - 1) % C + 1 :=
    curSlice_length items C k hC hk1 (le_of_lt hkL)
  have heqC : (k - 1) % C + 1 = C := mod_succ_eq_of_dvd hC hk1 hd
  have hbound := encCur_snoc_le items C k hC hk1 hkL
  have hw1 : (openWriter C B (curSliceSpec items C k)).write (items.getD k "") =
      (closedWriter C B (curSliceSpec items C k), some .countLimitExceeded) := by
    apply write_open_reject C B _ _ (by omega) (by omega) (by omega)
  have hw2 : (limitedWriter C B).write (items.getD k "") =
      (openWriter C B [items.getD k ""], none) := by
    apply write_fresh_ok C B _ hC
    have := encGetD_le items k hkL
    omega
  have hk0 : ¬ (k = 0) := by omega
  have hkk0 : ¬ (k + 1 = 0) := by omega
  have hk11 : ¬ (k + 1 = 1) := by omega
  have hdiv := div_succ_of_dvd hC hk1 hd
  have hfull := curSlice_full items C k hC hk1 hd
  have hnew := curSlice_new items C k hC hk1 hkL hd
  rw [processItem_eq]
  simp only [specOrch, if_neg hk0]
  rw [processItemLoop_continue _ _ _ _ _ _
        (loopIter_limit _ _ _ _ _ WriteError.countLimitExceeded hk11 hw1 rfl)]
  rw [rotateShard_destroyed _ _ rfl]
  rw [processItemLoop_exit _ _ _ _ _ _ (loopIter_ok _ _ _ _ _ hk11 hw2)]
  simp [specOrch, specTrace, hk0, hk11, hkk0, hdiv.1, hd, hnew, hfull,
    specIndex, indexChunksFor_succ, List.range_succ]
  rw [transformStep_str_head _ _ _ rfl]
  simp

theorem take_succ_getD (l : List String) (k : Nat) (h : k < l.length) :
    l.take (k + 1) = l.take k ++ [l.getD k ""] := by
  rw [List.take_succ, List.getD_eq_getElem?_getD, List.getElem?_eq_getElem h]
  rfl

/-- Functional characterization of a complete run: with `countLimit = C ≥ 1`
and a `byteLimit` that never binds, the orchestrator state and the per-item
event traces after any prefix of the input are given by the closed forms. -/
theorem runOrch_spec (locOf : Nat → String) (C B : Nat) (items : List String)
    (hC : 0 < C)
    (hB : closetagUrlset.length + preambleChunk.length + encSum items ≤ B) :
    ∀ k, k ≤ items.length →
      runOrch locOf 2 C B (items.take k)
        = (specOrch locOf C B items k, specTraces locOf C items k) := by
  intro k
  induction k with
  | zero =>
    intro _
    simp [runOrch, specOrch, specTraces]
  | succ k ih =>
    intro hk
    have hkL : k < items.length := by omega
    have htk := take_succ_getD items k hkL
    have hrec := ih (by omega)
    simp only [runOrch] at hrec ⊢
    rw [htk, List.foldl_append, hrec]
    simp only [List.foldl_cons, List.foldl_nil]
    have htr : specTraces locOf C items (k + 1)
        = specTraces locOf C items k ++ [(specTrace locOf C items (k + 1), some CbRes.ok)] := by
      simp [specTraces, List.range_succ]
    rcases Nat.eq_zero_or_pos k with hk0 | hk1
    · subst hk0
      have hstep : processItem locOf 2 (specOrch locOf C B items 0) (items.getD 0 "")
          = (specOrch locOf C B items 1, specTrace locOf C items 1, some CbRes.ok) :=
        processItem_step_first locOf C B items hC hB (by omega) 1
      rw [hstep, htr]
    · by_cases hdvd : C ∣ k
      · have hstep : processItem locOf 2 (specOrch locOf C B items k) (items.getD k "")
            = (specOrch locOf C B items (k + 1), specTrace locOf C items (k + 1),
               some CbRes.ok) :=
          processItem_step_rot locOf C B items k 0 hC hB hk1 hkL hdvd
        rw [hstep, htr]
      · have hstep : processItem locOf 2 (specOrch locOf C B items k) (items.getD k "")
            = (specOrch locOf C B items (k + 1), specTrace locOf C items (k + 1),
               some CbRes.ok) :=
          processItem_step_same locOf C B items k 1 hC hB hk1 hkL hdvd
        rw [hstep, htr]

/-- The characterization applied to the whole input. -/
theorem runOrch_full (locOf : Nat → String) (C B : Nat) (items : List String)
    (hC : 0 < C)
    (hB : closetagUrlset.length + preambleChunk.length + encSum items ≤ B) :
    runOrch locOf 2 C B items
      = (specOrch locOf C B items items.length, specTraces locOf C items items.length) := by
  have h := runOrch_spec locOf C B items hC hB items.length (le_refl _)
  rwa [List.take_length] at h

/-! ### Claim theorems -/

/-- C1: for `countLimit = C` (`C ≥ 1`) and a `byteLimit` that never binds
(`hB` bounds the whole input), a run over `N` items produces exactly
`⌈N / C⌉` non-empty sitemap shards; the `j`-th finalized shard (0-based) was
obtained with factory ordinal `j` and its document holds exactly the items
with input positions `[j·C, (j+1)·C)` in input order; the still-open last
shard holds exactly the remaining tail, so order is preserved across shard
boundaries; and every item's callback reported success. -/
theorem c1_shard_partition (locOf : Nat → String) (C B : Nat) (items : List String)
    (hC : 1 ≤ C)
    (hB : closetagUrlset.length + preambleChunk.length + encSum items ≤ B) :
    ((runOrch locOf 2 C B items).1.closedShards.length
        + (if 0 < (runOrch locOf 2 C B items).1.current.itemCount then 1 else 0)
      = (items.length + C - 1) / C)
    ∧ (∀ j, (hj : j < (runOrch locOf 2 C B items).1.closedShards.length) →
        ((runOrch locOf 2 C B items).1.closedShards.get ⟨j, hj⟩).1 = j
        ∧ ((runOrch locOf 2 C B items).1.closedShards.get ⟨j, hj⟩).2.out
            = preambleChunk :: ((items.drop (j * C)).take C).map encodeUrl
                ++ [closetagUrlset])
    ∧ (0 < items.length →
        (runOrch locOf 2 C B items).1.current.out
          = preambleChunk
              :: (items.drop ((runOrch locOf 2 C B items).1.closedShards.length * C)).map
                   encodeUrl)
    ∧ (∀ p ∈ (runOrch locOf 2 C B items).2, p.2 = some CbRes.ok) := by
  rw [runOrch_full locOf C B items hC hB]
  rcases Nat.eq_zero_or_pos items.length with hL | hL
  · refine ⟨?_, ?_, ?_, ?_⟩
    · simp [specOrch, hL, initOrch, limitedWriter, Nat.div_eq_of_lt (by omega : C - 1 < C),
        SitemapStream.setCountLimit, SitemapStream.setByteLimit, freshWriter]
    · intro j hj
      simp [specOrch, hL, initOrch] at hj
    · intro h
      omega
    · intro p hp
      simp [specTraces, hL] at hp
  · have hL0 : ¬ (items.length = 0) := by omega
    have hne : items ≠ [] := by
      intro h
      rw [h] at hL
      simp at hL
    have hlen := curSlice_length items C items.length hC hL (le_refl _)
    have hmod : (items.length - 1) % C < C := Nat.mod_lt _ hC
    refine ⟨?_, ?_, ?_, ?_⟩
    · simp only [specOrch, if_neg hL0]
      simp [openWriter, hlen, hne]
      have hc1 : items.length + C - 1 = (items.length - 1) + C := by omega
      rw [hc1, Nat.add_div_right _ hC]
    · intro j hj
      simp only [specOrch, if_neg hL0] at hj ⊢
      simp only [List.length_map, List.length_range] at hj
      simp [closedWriter, sliceC, hj, hne]
    · intro _
      simp only [specOrch, if_neg hL0]
      simp [openWriter, curSliceSpec, hne]
    · intro p hp
      simp only [specTraces] at hp
      simp at hp
      rcases hp with ⟨i, _, hpe⟩
      rw [← hpe]

/-- Concrete factory locations for witnesses and counterexamples, shaped like
the tests' `sitemap-0.xml`, `sitemap-1.xml`, ... paths. -/
def demoLoc : Nat → String := fun i => "sitemap-" ++ toString i ++ ".xml"

/-- Witness for C1 at `countLimit = 1`, `byteLimit = 1000`, two items. -/
theorem c1_shard_partition_witness :
    ((1 : Nat) ≤ 1
      ∧ closetagUrlset.length + preambleChunk.length + encSum ["u1", "u2"] ≤ 1000)
    ∧ ((runOrch demoLoc 2 1 1000 ["u1", "u2"]).1.closedShards.length
        + (if 0 < (runOrch demoLoc 2 1 1000 ["u1", "u2"]).1.current.itemCount then 1 else 0)
        = ((["u1", "u2"] : List String).length + 1 - 1) / 1) :=
  ⟨⟨by decide, by decide⟩,
   (c1_shard_partition demoLoc 1 1000 ["u1", "u2"] (by decide) (by decide)).1⟩

/-- The events of the second item of a two-item run with `countLimit = 1`. -/
def demoTrace2 : List OEvent :=
  ((runOrch demoLoc 2 1 1000 ["u1", "u2"]).2.getD 1 ([], none)).1

/-- C2 counterexample: in the two-item run with `countLimit = 1`, shard 1's
index entry is emitted during rotation, strictly before shard 1 accepts its
first (and only) item — the claim's "a shard's entry is emitted only once the
shard becomes non-empty (never before it accepts an item)" is false on the
code for every rotated shard. -/
theorem c2_entry_before_item_counterexample :
    demoTrace2
      = [OEvent.writeErr 0 .countLimitExceeded, OEvent.factoryCalled 1,
         OEvent.indexEntryPushed (demoLoc 1), OEvent.writeOk 1 "u2"]
    ∧ demoTrace2.indexOf (OEvent.indexEntryPushed (demoLoc 1))
        < demoTrace2.indexOf (OEvent.writeOk 1 "u2") := by
  constructor
  · decide
  · decide

/-- C2 (amended): for a completed run with `countLimit = C ≥ 1` and a
`byteLimit` that never binds, the index output holds exactly one entry per
shard that accepted at least one item, in shard-creation order (locations
`locOf 0 .. locOf ((N-1)/C)`); a run with no items announces no shard at all
(the pre-allocated shard 0 gets no entry). The per-item event traces are
exactly the closed forms `specTrace`: the FIRST shard's entry is pushed right
after its first accepted item, while every SUBSEQUENT shard's entry is pushed
at rotation, just before the retried item is written — i.e. before that shard
accepts its first item, not after; no shard is announced twice. -/
theorem c2_amended_index_entries (locOf : Nat → String) (C B : Nat)
    (items : List String) (hC : 1 ≤ C)
    (hB : closetagUrlset.length + preambleChunk.length + encSum items ≤ B) :
    ((runOrch locOf 2 C B items).1.index.out
        = if items.length = 0 then []
          else (xmlDec ++ stylesheetOf none ++ sitemapIndexTagStart)
                 :: indexChunksFor locOf ((items.length - 1) / C + 1))
    ∧ (∀ i, i < items.length →
        ((runOrch locOf 2 C B items).2.getD i ([], none)).1
          = specTrace locOf C items (i + 1)) := by
  rw [runOrch_full locOf C B items hC hB]
  constructor
  · rcases Nat.eq_zero_or_pos items.length with hL | hL
    · simp [specOrch, hL, initOrch, initIndex]
    · have hL0 : ¬ items.length = 0 := by omega
      have hne : items ≠ [] := by
        intro h
        rw [h] at hL
        simp at hL
      simp [specOrch, hL0, hne, specIndex]
  · intro i hi
    simp only [specTraces]
    rw [List.getD_eq_getElem?_getD, List.getElem?_map]
    simp [List.getElem?_range, hi]

/-- Witness for the amended C2 on the two-item run. -/
theorem c2_amended_index_entries_witness :
    ((1 : Nat) ≤ 1
      ∧ closetagUrlset.length + preambleChunk.length + encSum ["u1", "u2"] ≤ 1000)
    ∧ ((runOrch demoLoc 2 1 1000 ["u1", "u2"]).1.index.out
        = if (["u1", "u2"] : List String).length = 0 then []
          else (xmlDec ++ stylesheetOf none ++ sitemapIndexTagStart)
                 :: indexChunksFor demoLoc (((["u1", "u2"] : List String).length - 1) / 1 + 1)) :=
  ⟨⟨by decide, by decide⟩,
   (c2_amended_index_entries demoLoc 1 1000 ["u1", "u2"] (by decide) (by decide)).1⟩

/-- Orchestrator events that would represent ending or awaiting a superseded
shard's writer stream or physical sink. -/
def isBlockingEv : OEvent → Bool
  | .sitemapEnded _ => true
  | .awaitedWriterFinished _ => true
  | .awaitedSinkFinished _ => true
  | _ => false

/-- C3 counterexample: in the two-item `countLimit = 1` run, the rotation that
processes item 2 calls the factory for shard 1 without any prior await of the
superseded shard's physical sink — indeed without ending or awaiting anything:
the writer had already destroyed itself on the limit error, so the
`if (!this.currentSitemap.destroyed)` guard skips the `end()` and the
`finishedAsync` wait, and no sink is ever awaited during rotation. -/
theorem c3_no_sink_wait_counterexample :
    OEvent.factoryCalled 1 ∈ demoTrace2
    ∧ demoTrace2.all (fun e => !isBlockingEv e) = true
    ∧ (((runOrch demoLoc 2 1 1000 ["u1", "u2"]).2.getD 0 ([], none)).1).all
        (fun e => !isBlockingEv e) = true := by
  refine ⟨by decide, by decide, by decide⟩

/-- C3 (amended): a limit-rejected write leaves the writer already terminal
(closing tag written, destroyed), so the orchestrator's rotation path skips the
`end()`-and-await entirely — it waits neither for the writer stream nor for the
shard's physical sink before obtaining the next shard from the factory (it
would await only the writer stream, and only in the unreachable case where the
writer was not destroyed). What does hold: every superseded writer has its
closing tag written and is destroyed before the factory is called, so no two
shard writers are ever open at once. -/
theorem c3_amended_rotation_no_wait (locOf : Nat → String) (C B : Nat)
    (items : List String) (hC : 1 ≤ C)
    (hB : closetagUrlset.length + preambleChunk.length + encSum items ≤ B) :
    (∀ p ∈ (runOrch locOf 2 C B items).2, ∀ e ∈ p.1, isBlockingEv e = false)
    ∧ (∀ s ∈ (runOrch locOf 2 C B items).1.closedShards,
        s.2.wroteCloseTag = true ∧ s.2.destroyed = true)
    ∧ (∀ (w : SitemapStream) (u : String) (e : WriteError),
        (w.write u).2 = some e → isLimitErr e = true →
        (w.write u).1.wroteCloseTag = true ∧ (w.write u).1.destroyed = true)
    ∧ (∀ st : SitemapAndIndexStream, st.current.destroyed = true →
        (rotateShard locOf st).2
          = [OEvent.factoryCalled st.sitemapCount,
             OEvent.indexEntryPushed (locOf st.sitemapCount)]) := by
  refine ⟨?_, ?_, ?_, ?_⟩
  · intro p hp e he
    rw [runOrch_full locOf C B items hC hB] at hp
    simp only [specTraces] at hp
    simp at hp
    rcases hp with ⟨i, hi, hpe⟩
    rw [← hpe] at he
    simp only [specTrace] at he
    split at he
    · simp at he
      rcases he with h | h <;> simp [h, isBlockingEv]
    · split at he
      · simp at he
        rcases he with h | h | h | h <;> simp [h, isBlockingEv]
      · simp at he
        simp [he, isBlockingEv]
  · intro s hs
    rw [runOrch_full locOf C B items hC hB] at hs
    rcases Nat.eq_zero_or_pos items.length with hL | hL
    · simp [specOrch, hL, initOrch] at hs
    · have hL0 : ¬ items.length = 0 := by omega
      have hne : items ≠ [] := by
        intro h
        rw [h] at hL
        simp at hL
      simp only [specOrch, if_neg hL0] at hs
      simp at hs
      rcases hs with ⟨j, hj, hjs⟩
      rw [← hjs]
      simp [closedWriter]
  · intro w u e hw he
    by_cases hd : w.destroyed
    · simp [SitemapStream.write, hd] at hw
      rw [← hw] at he
      simp [isLimitErr] at he
    · by_cases hen : w.ended
      · simp [SitemapStream.write, hd, hen] at hw
        rw [← hw] at he
        simp [isLimitErr] at he
      · by_cases hct : w.wroteCloseTag
        · simp [SitemapStream.write, hd, hen, hct] at hw
          rw [← hw] at he
          simp [isLimitErr] at he
        · by_cases hbw : byteWouldExceed w u
          · simp [SitemapStream.write, hd, hen, hct, hbw, SitemapStream.closeTagNow]
          · by_cases hcw : countWouldExceed w
            · simp [SitemapStream.write, hd, hen, hct, hbw, hcw, SitemapStream.closeTagNow]
            · simp [SitemapStream.write, hd, hen, hct, hbw, hcw] at hw
  · intro st hd
    rw [rotateShard_destroyed locOf st hd]

/-- Witness for the amended C3 on the two-item run. -/
theorem c3_amended_rotation_no_wait_witness :
    ((1 : Nat) ≤ 1
      ∧ closetagUrlset.length + preambleChunk.length + encSum ["u1", "u2"] ≤ 1000)
    ∧ (∀ s ∈ (runOrch demoLoc 2 1 1000 ["u1", "u2"]).1.closedShards,
        s.2.wroteCloseTag = true ∧ s.2.destroyed = true) :=
  ⟨⟨by decide, by decide⟩,
   (c3_amended_rotation_no_wait demoLoc 1 1000 ["u1", "u2"] (by decide) (by decide)).2.1⟩

/-- A first write that does not fit an empty, freshly-limited writer is
rejected by the byte check and destroys the writer. -/
theorem write_fresh_reject (C B : Nat) (u : String)
    (hB : B < closetagUrlset.length + preambleChunk.length + (encodeUrl u).length) :
    (limitedWriter C B).write u
      = ({ limitedWriter C B with
            out := [closetagUrlset], wroteCloseTag := true, destroyed := true },
         some .byteLimitExceeded) := by
  have hbz : byteWouldExceed (limitedWriter C B) u = true := by
    simp only [byteWouldExceed, limitedWriter]
    simp
    omega
  simp only [SitemapStream.write, hbz]
  simp [limitedWriter, SitemapStream.closeTagNow]

/-- Factory-call events. -/
def isFactoryEv : OEvent → Bool
  | .factoryCalled _ => true
  | _ => false

/-- One iteration on a freshly-limited writer that cannot fit the item:
the loop continues after exactly one rotation, reaching a state whose current
writer is again freshly limited with the same limits. -/
theorem c4_step (locOf : Nat → String) (st : SitemapAndIndexStream) (item : String)
    (s0 : Nat) (hcur : st.current = limitedWriter st.countLimit st.byteLimit)
    (hB : st.byteLimit < closetagUrlset.length + preambleChunk.length
            + (encodeUrl item).length) :
    ∃ st2 ev2, loopIter locOf st item s0 = .inr (st2, ev2)
      ∧ st2.current = limitedWriter st2.countLimit st2.byteLimit
      ∧ st2.byteLimit = st.byteLimit
      ∧ ev2.countP isFactoryEv = 1 := by
  have hw : st.current.write item
      = ({ limitedWriter st.countLimit st.byteLimit with
            out := [closetagUrlset], wroteCloseTag := true, destroyed := true },
         some .byteLimitExceeded) := by
    rw [hcur]
    exact write_fresh_reject _ _ _ hB
  by_cases h1 : st.itemCountTotal = 1
  · rw [loopIter_limit_first _ _ _ _ _ _ h1 hw rfl]
    rw [rotateShard_destroyed _ _ rfl]
    refine ⟨_, _, rfl, rfl, rfl, ?_⟩
    simp [isFactoryEv]
  · rw [loopIter_limit _ _ _ _ _ _ h1 hw rfl]
    rw [rotateShard_destroyed _ _ rfl]
    refine ⟨_, _, rfl, rfl, rfl, ?_⟩
    simp [isFactoryEv]

/-- If no item fits an empty, freshly-limited writer, the retry loop rotates
once per iteration and never delivers a callback: the factory is called
exactly `fuel` times within the given fuel. -/
theorem c4_loop_diverges (locOf : Nat → String) (item : String) (s0 : Nat) :
    ∀ (fuel : Nat) (st : SitemapAndIndexStream),
      st.current = limitedWriter st.countLimit st.byteLimit →
      st.byteLimit < closetagUrlset.length + preambleChunk.length
        + (encodeUrl item).length →
      (processItemLoop locOf fuel st item s0).2.2 = none
      ∧ (processItemLoop locOf fuel st item s0).2.1.countP isFactoryEv = fuel := by
  intro fuel
  induction fuel with
  | zero =>
    intro st hcur hB
    simp [processItemLoop]
  | succ fuel ih =>
    intro st hcur hB
    obtain ⟨st2, ev2, hli, hinv2, hbeq, hcnt⟩ := c4_step locOf st item s0 hcur hB
    rw [processItemLoop_continue _ _ _ _ _ _ hli]
    have hrec := ih st2 hinv2 (by rw [hbeq]; exact hB)
    simp [List.countP_append, hrec.1, hrec.2, hcnt]
    omega

/-- C4 counterexample: with `byteLimit = 5` (no item fits an empty shard) and a
single item, the orchestrator does not treat the repeated limit failure as
fatal: within fuel 3 it calls the factory three times (three rotations for one
item occurrence — in particular more than once) and never completes the item's
processing, neither with success nor with an error. -/
theorem c4_rotates_again_counterexample :
    (processItem demoLoc 3 (initOrch demoLoc 1 5) "u").2.2 = none
    ∧ (processItem demoLoc 3 (initOrch demoLoc 1 5) "u").2.1.countP isFactoryEv = 3
    ∧ 2 ≤ (processItem demoLoc 3 (initOrch demoLoc 1 5) "u").2.1.countP isFactoryEv := by
  refine ⟨by decide, by decide, by decide⟩

/-- C4 (amended): when an item does not fit an empty, freshly-limited shard,
the `while (true)` loop rotates and retries again on every failure, without
bound: for every fuel, the item's callback is never invoked (no fatal error is
raised) and one factory shard is created per attempt. -/
theorem c4_amended_unbounded_rotation (locOf : Nat → String) (C B : Nat)
    (item : String)
    (hB : B < closetagUrlset.length + preambleChunk.length + (encodeUrl item).length) :
    ∀ fuel, (processItem locOf fuel (initOrch locOf C B) item).2.2 = none
      ∧ (processItem locOf fuel (initOrch locOf C B) item).2.1.countP isFactoryEv
          = fuel := by
  intro fuel
  have key := c4_loop_diverges locOf item (initOrch locOf C B).currentOrd fuel
    { initOrch locOf C B with
        pendingWrites := (initOrch locOf C B).pendingWrites + 1,
        itemCountTotal := (initOrch locOf C B).itemCountTotal + 1 }
    rfl hB
  rw [processItem_eq]
  exact ⟨key.1, key.2⟩

/-- Witness for the amended C4 at `byteLimit = 5`, fuel 2. -/
theorem c4_amended_unbounded_rotation_witness :
    ((5 : Nat) < closetagUrlset.length + preambleChunk.length + (encodeUrl "u").length)
    ∧ ((processItem demoLoc 2 (initOrch demoLoc 1 5) "u").2.2 = none
       ∧ (processItem demoLoc 2 (initOrch demoLoc 1 5) "u").2.1.countP isFactoryEv = 2) :=
  ⟨by decide, c4_amended_unbounded_rotation demoLoc 1 5 "u" (by decide) 2⟩

theorem foldl_flush_preserve (f : SitemapAndIndexStream → Nat → SitemapAndIndexStream)
    (h : ∀ s c, (f s c).index = s.index ∧ (f s c).flushDone = s.flushDone) :
    ∀ (l : List Nat) (st : SitemapAndIndexStream),
      (l.foldl f st).index = st.index ∧ (l.foldl f st).flushDone = st.flushDone := by
  intro l
  induction l with
  | nil =>
    intro st
    simp
  | cons c t ih =>
    intro st
    simp only [List.foldl_cons]
    have h1 := h st c
    have h2 := ih (f st c)
    exact ⟨h2.1.trans h1.1, h2.2.trans h1.2⟩

/-- The overridden finalize path never touches the index output and never
completes a finalize callback: `doTheFlush`'s `onFinish` re-enters the
overridden `this._flush`, so `SitemapIndexStream._flush` — the only code that
pushes the index closing tag and calls the callback — is unreachable from it. -/
theorem flush_preserves :
    ∀ fuel : Nat,
      (∀ st, (doTheFlushM fuel st).index = st.index
        ∧ (doTheFlushM fuel st).flushDone = st.flushDone)
      ∧ (∀ st cb, (flushM fuel st cb).index = st.index
        ∧ (flushM fuel st cb).flushDone = st.flushDone) := by
  intro fuel
  induction fuel with
  | zero =>
    constructor
    · intro st
      simp [doTheFlushM]
    · intro st cb
      simp [flushM]
  | succ fuel ih =>
    constructor
    · intro st
      simp only [doTheFlushM]
      by_cases hp : st.pipelineFinished
      · simp [hp]
      · simp only [hp]
        have h2 := foldl_flush_preserve (fun s c => flushM fuel s c)
          (fun s c => ih.2 s c) st.pendingFlushCallbacks
        simp [h2]
    · intro st cb
      simp only [flushM]
      by_cases hq : 0 < st.pendingWrites ∨ st.pendingFlushCallbacks ≠ []
      · simp [hq]
      · simp only [if_neg hq]
        have h1 := ih.1 { st with pendingFlushCallbacks := st.pendingFlushCallbacks ++ [cb] }
        simpa using h1

/-- C6 is a code bug: after writing one item and requesting finalization, the
index closing tag is never emitted and the finalize callback is never
satisfied, for any amount of fuel — `doTheFlush` (line 520) invokes the
overridden `this._flush` from the sink's `finish` handler instead of the parent
`SitemapIndexStream._flush`, so the parent flush (which pushes
`</sitemapindex>` and completes the callback) never runs; the second
`doTheFlush` round registers its `finish` listener after the sink has already
finished, and the callback is dropped. The tests (`streamToPromise(sms)` after
`sms.end()`) require the flush to complete, so the code contradicts them. -/
theorem c6_flush_never_finalizes :
    ∀ fuel cb : Nat,
      (flushM fuel
        (runOrch demoLoc 2 45000 (45 * 1024 * 1024) ["https://1.example.com/a"]).1
        cb).flushDone = []
      ∧ closetagIndex ∉
          (flushM fuel
            (runOrch demoLoc 2 45000 (45 * 1024 * 1024) ["https://1.example.com/a"]).1
            cb).index.out := by
  intro fuel cb
  have h := (flush_preserves fuel).2
    (runOrch demoLoc 2 45000 (45 * 1024 * 1024) ["https://1.example.com/a"]).1 cb
  constructor
  · rw [h.2]
    decide
  · rw [h.1]
    decide

/-- C7: when an item's write fails with a write-after-terminal error (the
destroyed-writer class), the loop delivers
`TypeError('resubmit to same sitemap not allowed')` if the current shard is
still the shard that was current when this item's processing began
(`currentSitemap === sitemapAtStart`, modelled by the factory ordinal, which is
unique per shard); if the current shard has changed since, the write is instead
retried against the new current shard (the loop continues on the same state
without delivering any callback). -/
theorem c7_terminal_error_dispatch (locOf : Nat → String)
    (st : SitemapAndIndexStream) (item : String) (startOrd fuel : Nat)
    (hterm : st.current.destroyed = true) (h1 : st.itemCountTotal ≠ 1) :
    (st.currentOrd = startOrd →
       processItemLoop locOf (fuel + 1) st item startOrd
         = (st, [OEvent.writeErr st.currentOrd .streamDestroyed], some .typeErr))
    ∧ (st.currentOrd ≠ startOrd →
       processItemLoop locOf (fuel + 1) st item startOrd
         = ((processItemLoop locOf fuel st item startOrd).1,
            OEvent.writeErr st.currentOrd .streamDestroyed
              :: (processItemLoop locOf fuel st item startOrd).2.1,
            (processItemLoop locOf fuel st item startOrd).2.2)) := by
  have hw : st.current.write item = (st.current, some .streamDestroyed) := by
    simp [SitemapStream.write, hterm]
  have hli := loopIter_terminal locOf st item startOrd st.current .streamDestroyed
    h1 hw rfl rfl
  constructor
  · intro ho
    rw [if_pos ho] at hli
    rw [processItemLoop_exit _ _ _ _ _ _ hli]
  · intro ho
    rw [if_neg ho] at hli
    rw [processItemLoop_continue _ _ _ _ _ _ hli]
    rfl

/-- A state whose current writer is terminal (destroyed by a limit failure),
as would be observed by a racing write. -/
def c7state : SitemapAndIndexStream :=
  { itemCountTotal := 2, sitemapCount := 2, currentOrd := 1,
    current := { limitedWriter 1 1000 with
                  wroteCloseTag := true, destroyed := true, out := [closetagUrlset] },
    idxItem := demoLoc 1, countLimit := 1, byteLimit := 1000,
    index := initIndex false none, closedShards := [], pendingWrites := 1,
    pendingFlushCallbacks := [], flushDone := [], pipelineFinished := false }

/-- Witness for C7 on a concrete destroyed-writer state, same-shard branch. -/
theorem c7_terminal_error_dispatch_witness :
    (c7state.current.destroyed = true ∧ c7state.itemCountTotal ≠ 1)
    ∧ (c7state.currentOrd = 1 →
        processItemLoop demoLoc 1 c7state "u" 1
          = (c7state, [OEvent.writeErr c7state.currentOrd .streamDestroyed],
             some .typeErr)) :=
  ⟨⟨by decide, by decide⟩,
   (c7_terminal_error_dispatch demoLoc c7state "u" 1 0 (by decide) (by decide)).1⟩

/-- C9 (spec-modelled, pinned by the `countLimit / byteLimit properties`
tests): setting `countLimit` or `byteLimit` a second time, or for the first
time after any item has been written, raises a configuration error
synchronously, and the writer — including the previously effective limits —
is left unchanged by the failed attempt. -/
theorem c9_write_once_limits (w : SitemapStream) (n : Nat) :
    ((0 < w.itemCount ∨ w.countLimit.isSome = true) →
       (w.setCountLimit n).2.isSome = true ∧ (w.setCountLimit n).1 = w)
    ∧ ((0 < w.itemCount ∨ w.byteLimit.isSome = true) →
       (w.setByteLimit n).2.isSome = true ∧ (w.setByteLimit n).1 = w) := by
  constructor
  · intro h
    simp only [SitemapStream.setCountLimit]
    by_cases hi : 0 < w.itemCount
    · simp [hi]
    · rcases h with h | h
      · exact absurd h hi
      · simp [hi, h]
  · intro h
    simp only [SitemapStream.setByteLimit]
    by_cases hi : 0 < w.itemCount
    · simp [hi]
    · rcases h with h | h
      · exact absurd h hi
      · simp [hi, h]

/-- Witness for C9: a writer with `countLimit` already set rejects a second
`countLimit` assignment and is unchanged. -/
theorem c9_write_once_limits_witness :
    (0 < (limitedWriter 1 2).itemCount ∨ (limitedWriter 1 2).countLimit.isSome = true)
    ∧ (((limitedWriter 1 2).setCountLimit 5).2.isSome = true
       ∧ ((limitedWriter 1 2).setCountLimit 5).1 = limitedWriter 1 2) :=
  ⟨by decide, (c9_write_once_limits (limitedWriter 1 2) 5).1 (by decide)⟩

/-- C10: an index entry given as a record with a (nonempty) `lastmod` emits a
`<lastmod>` element whose text is exactly `new Date(lastmod).toISOString()`
— modelled by the parameter `d` standing for that JS builtin composite — or
exactly its first 10 characters when `lastmodDateOnly` is set, so any
`Date`-parseable input is normalized to the UTC ISO-8601 form `d` produces; an
entry given as a plain string emits only a `<loc>` element and no
`<lastmod>`. -/
theorem c10_lastmod_normalization (d : String → String) (st : SitemapIndexStream)
    (url lm : String) (hlm : lm ≠ "") :
    ((st.transformStep d (.entry url (some lm))).out
      = (indexHead st).out
        ++ [otag "sitemap", element "loc" url,
            element "lastmod" (if st.lastmodDateOnly then (d lm).take 10 else d lm),
            ctag "sitemap"])
    ∧ (∀ s : String, (st.transformStep d (.str s)).out
        = (indexHead st).out ++ [otag "sitemap", element "loc" s, ctag "sitemap"]) := by
  constructor
  · by_cases hh : st.hasHeadOutput
    · simp [SitemapIndexStream.transformStep, indexHead, hh, hlm]
    · simp [SitemapIndexStream.transformStep, indexHead, hh, hlm]
  · intro s
    by_cases hh : st.hasHeadOutput
    · simp [SitemapIndexStream.transformStep, indexHead, hh]
    · simp [SitemapIndexStream.transformStep, indexHead, hh]

/-- Witness for C10 with `lastmodDateOnly` set and a fixed date conversion. -/
theorem c10_lastmod_normalization_witness :
    (("2018-11-26" : String) ≠ "")
    ∧ (((initIndex true none).transformStep (fun _ => "2018-11-26T00:00:00.000Z")
          (.entry "https://test.com/s1.xml" (some "2018-11-26"))).out
        = (indexHead (initIndex true none)).out
          ++ [otag "sitemap", element "loc" "https://test.com/s1.xml",
              element "lastmod"
                (if (initIndex true none).lastmodDateOnly
                 then ("2018-11-26T00:00:00.000Z" : String).take 10
                 else "2018-11-26T00:00:00.000Z"),
              ctag "sitemap"]) :=
  ⟨by decide,
   (c10_lastmod_normalization (fun _ => "2018-11-26T00:00:00.000Z")
      (initIndex true none) "https://test.com/s1.xml" "2018-11-26" (by decide)).1⟩

theorem outBytes_append (a b : List String) :
    outBytes (a ++ b) = outBytes a + outBytes b := by
  simp [outBytes]

/-- Byte accounting invariant of the writer: `byteCount` equals the bytes
pushed so far plus the reserved closing tag when it is still pending, and
never exceeds the byte limit. -/
def byteInv (B : Nat) (w : SitemapStream) : Prop :=
  w.byteLimit = some B
  ∧ w.byteCount = outBytes w.out + (if w.wroteCloseTag then 0 else closetagUrlset.length)
  ∧ w.byteCount ≤ B

theorem byteInv_write (B : Nat) (w : SitemapStream) (u : String)
    (h : byteInv B w) : byteInv B (w.write u).1 := by
  obtain ⟨hbl, heq, hle⟩ := h
  by_cases hd : w.destroyed
  · simpa [SitemapStream.write, hd] using ⟨hbl, heq, hle⟩
  · by_cases hen : w.ended
    · simpa [SitemapStream.write, hd, hen] using ⟨hbl, heq, hle⟩
    · by_cases hct : w.wroteCloseTag
      · simpa [SitemapStream.write, hd, hen, hct] using ⟨hbl, heq, hle⟩
      · by_cases hbw : byteWouldExceed w u
        · simp [SitemapStream.write, hd, hen, hct, hbw, SitemapStream.closeTagNow,
            byteInv, outBytes_append, hbl]
          simp [hct] at heq
          simp [outBytes] at heq ⊢
          omega
        · by_cases hcw : countWouldExceed w
          · simp [SitemapStream.write, hd, hen, hct, hbw, hcw, SitemapStream.closeTagNow,
              byteInv, outBytes_append, hbl]
            simp [hct] at heq
            simp [outBytes] at heq ⊢
            omega
          · have hbw2 : ¬ (B < w.byteCount
                + (if w.itemCount = 0 then preambleChunk.length else 0)
                + (encodeUrl u).length) := by
              simp only [byteWouldExceed, hbl] at hbw
              simpa using hbw
            by_cases hi : w.itemCount = 0
            · simp [SitemapStream.write, hd, hen, hct, hbw, hcw, hi, byteInv,
                outBytes_append, hbl, hct]
              simp [hct] at heq
              simp [outBytes] at heq ⊢
              simp [hi] at hbw2
              omega
            · simp [SitemapStream.write, hd, hen, hct, hbw, hcw, hi, byteInv,
                outBytes_append, hbl, hct]
              simp [hct] at heq
              simp [outBytes] at heq ⊢
              simp [hi] at hbw2
              omega

theorem byteInv_end (B : Nat) (w : SitemapStream) (h : byteInv B w) :
    byteInv B w.endStream := by
  obtain ⟨hbl, heq, hle⟩ := h
  by_cases hct : w.wroteCloseTag
  · have heq2 : w.byteCount = outBytes w.out := by simpa [hct] using heq
    simpa [SitemapStream.endStream, hct, byteInv] using ⟨hbl, heq2, hle⟩
  · simp [SitemapStream.endStream, hct, SitemapStream.closeTagNow, byteInv,
      outBytes_append, hbl]
    simp [hct] at heq
    simp [outBytes] at heq ⊢
    omega

theorem byteInv_fold (B : Nat) (ops : List WOp) :
    ∀ w, byteInv B w → byteInv B (runWriter w ops) := by
  induction ops with
  | nil =>
    intro w h
    simpa [runWriter] using h
  | cons op t ih =>
    intro w h
    have hstep : byteInv B (match op with
        | WOp.write u => (w.write u).1
        | WOp.close => w.endStream) := by
      cases op with
      | write u => exact byteInv_write B w u h
      | close => exact byteInv_end B w h
    have := ih _ hstep
    simpa [runWriter, List.foldl_cons] using this

theorem byteInv_run (B : Nat) (cl : Option Nat) (ops : List WOp)
    (hB : closetagUrlset.length ≤ B) :
    byteInv B (runWriter { freshWriter with countLimit := cl, byteLimit := some B } ops) := by
  apply byteInv_fold
  refine ⟨rfl, ?_, ?_⟩
  · simp [freshWriter, outBytes]
  · simpa [freshWriter] using hB

/-- C8 (spec-modelled, pinned by the byte-accounting assertions of the tests):
for any sequence of writer operations under `byteLimit = B` (with the sanity
bound that `B` is at least the constant closing tag), the serialized byte size
of the writer's output never exceeds `B` — the writer reserves the closing
tag's bytes in `byteCount` from creation, and the pre-commit check
`byteCount + preambleIfFirst + encodedLength > byteLimit` therefore bounds the
final document; a write whose committed bytes would exceed `B` is rejected
with `ByteLimitExceededError` before the item is committed (`itemCount` and
the item chunks unchanged), the shard is finalized (closing tag written,
destroyed), and a destroyed writer rejects every further write. -/
theorem c8_byte_limit_enforced (B : Nat) (cl : Option Nat) (ops : List WOp)
    (hB : closetagUrlset.length ≤ B) :
    outBytes (runWriter { freshWriter with countLimit := cl, byteLimit := some B } ops).out
      ≤ B
    ∧ (∀ (v : SitemapStream) (u : String), v.byteLimit = some B →
        v.destroyed = false → v.ended = false → v.wroteCloseTag = false →
        B < v.byteCount + (if v.itemCount = 0 then preambleChunk.length else 0)
              + (encodeUrl u).length →
        (v.write u).2 = some .byteLimitExceeded
        ∧ (v.write u).1.wroteCloseTag = true
        ∧ (v.write u).1.destroyed = true
        ∧ (v.write u).1.itemCount = v.itemCount
        ∧ (v.write u).1.out = v.out ++ [closetagUrlset])
    ∧ (∀ (v : SitemapStream) (u : String), v.destroyed = true →
        v.write u = (v, some .streamDestroyed)) := by
  have outBytes_le_of_byteInv : ∀ w : SitemapStream, byteInv B w → outBytes w.out ≤ B := by
    intro w hw
    obtain ⟨_, heq, hle⟩ := hw
    by_cases hct : w.wroteCloseTag
    · simp [hct] at heq
      omega
    · simp [hct] at heq
      omega
  refine ⟨?_, ?_, ?_⟩
  · exact outBytes_le_of_byteInv _ (byteInv_run B cl ops hB)
  · intro v u hbl hd hen hct hover
    have hbw : byteWouldExceed v u = true := by
      simp only [byteWouldExceed, hbl]
      simpa using hover
    simp [SitemapStream.write, hd, hen, hct, hbw, SitemapStream.closeTagNow]
  · intro v u hd
    simp [SitemapStream.write, hd]

/-- Witness for C8 at `byteLimit = 400` with one accepted item and a close. -/
theorem c8_byte_limit_enforced_witness :
    closetagUrlset.length ≤ 400
    ∧ outBytes (runWriter { freshWriter with countLimit := (none : Option Nat),
                                             byteLimit := some 400 }
                  [WOp.write "http://example.com/", WOp.close]).out ≤ 400 :=
  ⟨by decide,
   (c8_byte_limit_enforced 400 none [WOp.write "http://example.com/", WOp.close]
      (by decide)).1⟩

/-! ### Chunk disambiguation for the well-formedness claims -/

theorem enc_ne_close (u : String) : encodeUrl u ≠ closetagUrlset := by
  intro h
  have h2 := congrArg String.length h
  simp only [encodeUrl, closetagUrlset, String.length_append] at h2
  have e1 : ("<url><loc>" : String).length = 10 := rfl
  have e2 : ("</loc></url>" : String).length = 12 := rfl
  have e3 : ("</urlset>" : String).length = 9 := rfl
  omega

theorem preamble_ne_close : preambleChunk ≠ closetagUrlset := by
  intro h
  have h2 := congrArg String.length h
  have e1 : preambleChunk.length = 325 := rfl
  have e2 : closetagUrlset.length = 9 := rfl
  omega

theorem element_loc_ne_closeIdx (s : String) : element "loc" s ≠ closetagIndex := by
  intro h
  have h2 := congrArg String.data h
  simp only [element, otag, ctag, closetagIndex, String.data_append] at h2
  simp at h2

theorem element_lastmod_ne_closeIdx (s : String) :
    element "lastmod" s ≠ closetagIndex := by
  intro h
  have h2 := congrArg String.data h
  simp only [element, otag, ctag, closetagIndex, String.data_append] at h2
  simp at h2

theorem otag_sitemap_ne_closeIdx : otag "sitemap" ≠ closetagIndex := by decide

theorem ctag_sitemap_ne_closeIdx : ctag "sitemap" ≠ closetagIndex := by decide

theorem head_ne_closeIdx (xsl : Option String) :
    xmlDec ++ stylesheetOf xsl ++ sitemapIndexTagStart ≠ closetagIndex := by
  intro h
  have h2 := congrArg String.length h
  simp only [String.length_append] at h2
  have e1 : xmlDec.length = 38 := rfl
  have e2 : sitemapIndexTagStart.length = 66 := rfl
  have e3 : closetagIndex.length = 15 := rfl
  omega

theorem head?_append_some {α : Type} (l l' : List α) (a : α)
    (h : l.head? = some a) : (l ++ l').head? = some a := by
  cases l with
  | nil => simp at h
  | cons b t => simpa using h

/-! ### Well-formedness invariant of the single-file writer -/

/-- Shape invariant of the writer's output: preamble first once any item was
accepted, exactly one closing-tag chunk once terminal, closing tag written
before any terminal flag, and a zero-item document is empty or the bare
closing tag. -/
def wfInv (w : SitemapStream) : Prop :=
  (0 < w.itemCount → w.out.head? = some preambleChunk)
  ∧ w.out.count closetagUrlset = (if w.wroteCloseTag then 1 else 0)
  ∧ ((w.destroyed = true ∨ w.ended = true) → w.wroteCloseTag = true)
  ∧ (w.itemCount = 0 → w.wroteCloseTag = true → w.out = [closetagUrlset])
  ∧ (w.itemCount = 0 → w.wroteCloseTag = false → w.out = [])

theorem wfInv_closeTagNow (w : SitemapStream) (h : wfInv w)
    (hct : w.wroteCloseTag = false) : wfInv w.closeTagNow := by
  obtain ⟨hhd, hcnt, hterm, hempty, hnone⟩ := h
  have hc0 : w.out.count closetagUrlset = 0 := by
    rw [hcnt, hct]
    rfl
  refine ⟨?_, ?_, ?_, ?_, ?_⟩
  · intro hi
    simp only [SitemapStream.closeTagNow] at hi ⊢
    exact head?_append_some _ _ _ (hhd hi)
  · simp [SitemapStream.closeTagNow, List.count_append, hc0]
  · intro _
    simp [SitemapStream.closeTagNow]
  · intro hi _
    simp only [SitemapStream.closeTagNow]
    rw [hnone hi hct]
    rfl
  · intro _ hcc
    simp [SitemapStream.closeTagNow] at hcc

theorem wfInv_write (w : SitemapStream) (u : String) (h : wfInv w) :
    wfInv (w.write u).1 := by
  obtain ⟨hhd, hcnt, hterm, hempty, hnone⟩ := h
  by_cases hd : w.destroyed
  · have hres : (w.write u).1 = w := by simp [SitemapStream.write, hd]
    rw [hres]
    exact ⟨hhd, hcnt, hterm, hempty, hnone⟩
  · by_cases hen : w.ended
    · have hres : (w.write u).1 = w := by simp [SitemapStream.write, hd, hen]
      rw [hres]
      exact ⟨hhd, hcnt, hterm, hempty, hnone⟩
    · by_cases hct : w.wroteCloseTag
      · have hres : (w.write u).1 = w := by simp [SitemapStream.write, hd, hen, hct]
        rw [hres]
        exact ⟨hhd, hcnt, hterm, hempty, hnone⟩
      · have hctf : w.wroteCloseTag = false := by simpa using hct
        have hc0 : w.out.count closetagUrlset = 0 := by
          rw [hcnt, hctf]
          rfl
        have hclose := wfInv_closeTagNow w ⟨hhd, hcnt, hterm, hempty, hnone⟩ hctf
        by_cases hbw : byteWouldExceed w u
        · have hres : (w.write u).1 = { w.closeTagNow with destroyed := true } := by
            simp [SitemapStream.write, hd, hen, hct, hbw]
          rw [hres]
          obtain ⟨chd, ccnt, _, cempty, cnone⟩ := hclose
          refine ⟨chd, ccnt, ?_, ?_, ?_⟩
          · intro _
            simp [SitemapStream.closeTagNow]
          · intro hi _
            exact cempty hi (by simp [SitemapStream.closeTagNow])
          · intro _ hcc
            simp [SitemapStream.closeTagNow] at hcc
        · by_cases hcw : countWouldExceed w
          · have hres : (w.write u).1 = { w.closeTagNow with destroyed := true } := by
              simp [SitemapStream.write, hd, hen, hct, hbw, hcw]
            rw [hres]
            obtain ⟨chd, ccnt, _, cempty, cnone⟩ := hclose
            refine ⟨chd, ccnt, ?_, ?_, ?_⟩
            · intro _
              simp [SitemapStream.closeTagNow]
            · intro hi _
              exact cempty hi (by simp [SitemapStream.closeTagNow])
            · intro _ hcc
              simp [SitemapStream.closeTagNow] at hcc
          · by_cases hi : w.itemCount = 0
            · have hout : w.out = [] := hnone hi hctf
              have hres : (w.write u).1
                  = { w with
                      out := (w.out ++ [preambleChunk]) ++ [encodeUrl u],
                      byteCount :=
                        w.byteCount + preambleChunk.length + (encodeUrl u).length,
                      itemCount := 1 } := by
                simp [SitemapStream.write, hd, hen, hct, hbw, hcw, hi]
              rw [hres]
              refine ⟨?_, ?_, ?_, ?_, ?_⟩
              · intro _
                simp [hout]
              · simp [hout, hctf, List.count_cons, enc_ne_close u, preamble_ne_close]
              · intro hoe
                rcases hoe with hx | hx
                · exact absurd hx hd
                · exact absurd hx hen
              · intro hx
                simp at hx
              · intro hx
                simp at hx
            · have hres : (w.write u).1
                  = { w with
                      out := w.out ++ [encodeUrl u],
                      byteCount := w.byteCount + (encodeUrl u).length,
                      itemCount := w.itemCount + 1 } := by
                simp [SitemapStream.write, hd, hen, hct, hbw, hcw, hi]
              rw [hres]
              refine ⟨?_, ?_, ?_, ?_, ?_⟩
              · intro _
                exact head?_append_some _ _ _ (hhd (by omega))
              · simp [List.count_append, hc0, hctf, List.count_cons, enc_ne_close u]
              · intro hoe
                rcases hoe with hx | hx
                · exact absurd hx hd
                · exact absurd hx hen
              · intro hx
                simp at hx
              · intro hx
                simp at hx

theorem wfInv_end (w : SitemapStream) (h : wfInv w) : wfInv w.endStream := by
  obtain ⟨hhd, hcnt, hterm, hempty, hnone⟩ := h
  by_cases hct : w.wroteCloseTag
  · have hres : w.endStream = { w with ended := true } := by
      simp [SitemapStream.endStream, hct]
    rw [hres]
    refine ⟨hhd, hcnt, ?_, ?_, ?_⟩
    · intro _
      exact hct
    · intro hi _
      exact hempty hi hct
    · intro _ hcc
      rw [hct] at hcc
      simp at hcc
  · have hctf : w.wroteCloseTag = false := by simpa using hct
    have hres : w.endStream = { w.closeTagNow with ended := true } := by
      simp [SitemapStream.endStream, hct]
    rw [hres]
    obtain ⟨chd, ccnt, _, cempty, cnone⟩ :=
      wfInv_closeTagNow w ⟨hhd, hcnt, hterm, hempty, hnone⟩ hctf
    refine ⟨chd, ccnt, ?_, ?_, ?_⟩
    · intro _
      simp [SitemapStream.closeTagNow]
    · intro hi _
      exact cempty hi (by simp [SitemapStream.closeTagNow])
    · intro _ hcc
      simp [SitemapStream.closeTagNow] at hcc

theorem wfInv_fold (ops : List WOp) :
    ∀ w, wfInv w → wfInv (runWriter w ops) := by
  induction ops with
  | nil =>
    intro w h
    simpa [runWriter] using h
  | cons op t ih =>
    intro w h
    have hstep : wfInv (match op with
        | WOp.write u => (w.write u).1
        | WOp.close => w.endStream) := by
      cases op with
      | write u => exact wfInv_write w u h
      | close => exact wfInv_end w h
    have := ih _ hstep
    simpa [runWriter, List.foldl_cons] using this

/-! ### Well-formedness invariant of the index writer -/

/-- Shape invariant of the index stream's output before the flush. -/
def idxInv (st : SitemapIndexStream) : Prop :=
  (st.hasHeadOutput = false → st.out = [])
  ∧ (st.hasHeadOutput = true →
      st.out.head? = some (xmlDec ++ stylesheetOf st.xslUrl ++ sitemapIndexTagStart))
  ∧ st.out.count closetagIndex = 0

theorem idxInv_transform (d : String → String) (st : SitemapIndexStream)
    (e : IndexItem) (h : idxInv st) :
    idxInv (st.transformStep d e)
    ∧ (st.transformStep d e).hasHeadOutput = true
    ∧ (st.transformStep d e).xslUrl = st.xslUrl := by
  obtain ⟨hno, hhd, hcnt⟩ := h
  have hhead : idxInv (indexHead st)
      ∧ (indexHead st).hasHeadOutput = true
      ∧ (indexHead st).xslUrl = st.xslUrl := by
    by_cases hh : st.hasHeadOutput
    · have heq : indexHead st = st := by simp [indexHead, hh]
      rw [heq]
      exact ⟨⟨hno, hhd, hcnt⟩, hh, rfl⟩
    · have hout : st.out = [] := hno (by simpa using hh)
      refine ⟨⟨?_, ?_, ?_⟩, ?_, ?_⟩
      · intro hfalse
        simp [indexHead, hh] at hfalse
      · intro _
        simp [indexHead, hh, hout]
      · simp [indexHead, hh, hout, List.count_cons, head_ne_closeIdx st.xslUrl]
      · simp [indexHead, hh]
      · simp [indexHead, hh]
  obtain ⟨⟨hno2, hhd2, hcnt2⟩, hh2, hx2⟩ := hhead
  have hbase : ∀ extra : List String, extra.count closetagIndex = 0 →
      idxInv { indexHead st with out := (indexHead st).out ++ extra }
      ∧ ({ indexHead st with out := (indexHead st).out ++ extra }).hasHeadOutput = true := by
    intro extra hex
    refine ⟨⟨?_, ?_, ?_⟩, hh2⟩
    · intro hfalse
      have hf2 : (indexHead st).hasHeadOutput = false := hfalse
      rw [hh2] at hf2
      simp at hf2
    · intro _
      show ((indexHead st).out ++ extra).head?
          = some (xmlDec ++ stylesheetOf (indexHead st).xslUrl ++ sitemapIndexTagStart)
      exact head?_append_some _ _ _ (hhd2 hh2)
    · show ((indexHead st).out ++ extra).count closetagIndex = 0
      simp [List.count_append, hcnt2, hex]
  cases e with
  | str s =>
    have hform : st.transformStep d (.str s)
        = { indexHead st with out := (indexHead st).out
              ++ [otag "sitemap", element "loc" s, ctag "sitemap"] } := by
      simp [SitemapIndexStream.transformStep]
    rw [hform]
    have := hbase [otag "sitemap", element "loc" s, ctag "sitemap"]
      (by simp [List.count_cons, otag_sitemap_ne_closeIdx, element_loc_ne_closeIdx s,
            ctag_sitemap_ne_closeIdx])
    exact ⟨this.1, this.2, hx2⟩
  | entry url lm =>
    cases lm with
    | none =>
      have hform : st.transformStep d (.entry url none)
          = { indexHead st with out := (indexHead st).out
                ++ [otag "sitemap", element "loc" url, ctag "sitemap"] } := by
        simp [SitemapIndexStream.transformStep]
      rw [hform]
      have := hbase [otag "sitemap", element "loc" url, ctag "sitemap"]
        (by simp [List.count_cons, otag_sitemap_ne_closeIdx, element_loc_ne_closeIdx url,
              ctag_sitemap_ne_closeIdx])
      exact ⟨this.1, this.2, hx2⟩
    | some l =>
      by_cases hl : l = ""
      · have hform : st.transformStep d (.entry url (some l))
            = { indexHead st with out := (indexHead st).out
                  ++ [otag "sitemap", element "loc" url, ctag "sitemap"] } := by
          simp [SitemapIndexStream.transformStep, hl]
        rw [hform]
        have := hbase [otag "sitemap", element "loc" url, ctag "sitemap"]
          (by simp [List.count_cons, otag_sitemap_ne_closeIdx,
                element_loc_ne_closeIdx url, ctag_sitemap_ne_closeIdx])
        exact ⟨this.1, this.2, hx2⟩
      · have hform : st.transformStep d (.entry url (some l))
            = { indexHead st with out := (indexHead st).out
                  ++ [otag "sitemap", element "loc" url,
                      element "lastmod"
                        (if (indexHead st).lastmodDateOnly then (d l).take 10 else d l),
                      ctag "sitemap"] } := by
          simp [SitemapIndexStream.transformStep, hl]
        rw [hform]
        have := hbase [otag "sitemap", element "loc" url,
            element "lastmod"
              (if (indexHead st).lastmodDateOnly then (d l).take 10 else d l),
            ctag "sitemap"]
          (by simp [List.count_cons, otag_sitemap_ne_closeIdx,
                element_loc_ne_closeIdx url, element_lastmod_ne_closeIdx _,
                ctag_sitemap_ne_closeIdx])
        exact ⟨this.1, this.2, hx2⟩

theorem idxInv_run (d : String → String) (entries : List IndexItem) :
    ∀ st, idxInv st →
      idxInv (runIndex d st entries)
      ∧ (runIndex d st entries).xslUrl = st.xslUrl
      ∧ (entries ≠ [] → (runIndex d st entries).hasHeadOutput = true)
      ∧ (entries = [] → runIndex d st entries = st) := by
  induction entries with
  | nil =>
    intro st h
    refine ⟨by simpa [runIndex] using h, by simp [runIndex], by simp, by simp [runIndex]⟩
  | cons e t ih =>
    intro st h
    have hstep := idxInv_transform d st e h
    have hrec := ih (st.transformStep d e) hstep.1
    have hrun : runIndex d st (e :: t) = runIndex d (st.transformStep d e) t := by
      simp [runIndex, List.foldl_cons]
    refine ⟨by rw [hrun]; exact hrec.1, ?_, ?_, ?_⟩
    · rw [hrun, hrec.2.1, hstep.2.2]
    · intro _
      rw [hrun]
      rcases Decidable.em (t = []) with ht | ht
      · rw [hrec.2.2.2 ht]
        exact hstep.2.1
      · exact hrec.2.2.1 ht
    · intro hfalse
      simp at hfalse

/-- C5 (amended): every non-empty produced document begins with the XML
declaration and contains exactly one closing-tag chunk once terminal, and every
forced shutdown path (limit breach, explicit end) writes the closing tag before
the writer becomes terminal. The spec's unqualified "every produced document
begins with its declaration" fails for zero-item documents (see
`c5_empty_document_counterexample`): a writer or index that never accepted an
item emits only the bare closing tag, because the head is emitted lazily on the
first accepted item. -/
theorem c5_wellformed_documents (cl bl : Option Nat) (ops : List WOp)
    (d : String → String) (lmdo : Bool) (xsl : Option String)
    (entries : List IndexItem) (w : SitemapStream) (ix : SitemapIndexStream)
    (hw : w = runWriter { freshWriter with countLimit := cl, byteLimit := bl } ops)
    (hix : ix = (runIndex d (initIndex lmdo xsl) entries).flushStep) :
    ((0 < w.itemCount → w.out.head? = some preambleChunk)
     ∧ preambleChunk = xmlDec ++ preambleChunk.drop xmlDec.length
     ∧ w.out.count closetagUrlset = (if w.wroteCloseTag then 1 else 0)
     ∧ ((w.destroyed = true ∨ w.ended = true) → w.wroteCloseTag = true)
     ∧ (w.itemCount = 0 → w.wroteCloseTag = true → w.out = [closetagUrlset]))
    ∧ ((entries ≠ [] →
          ix.out.head? = some (xmlDec ++ stylesheetOf xsl ++ sitemapIndexTagStart))
       ∧ ix.out.count closetagIndex = 1
       ∧ (entries = [] → ix.out = [closetagIndex])) := by
  subst hw
  subst hix
  constructor
  · have hw0 : wfInv { freshWriter with countLimit := cl, byteLimit := bl } := by
      simp [wfInv, freshWriter]
    obtain ⟨hhd, hcnt, hterm, hempty, _⟩ := wfInv_fold ops _ hw0
    exact ⟨hhd, by decide, hcnt, hterm, hempty⟩
  · have hi0 : idxInv (initIndex lmdo xsl) := by
      simp [idxInv, initIndex]
    obtain ⟨⟨hino, hihd, hicnt⟩, hix2, hih, hie⟩ :=
      idxInv_run d entries (initIndex lmdo xsl) hi0
    refine ⟨?_, ?_, ?_⟩
    · intro hne
      have hh := hihd (hih hne)
      rw [hix2] at hh
      show ((runIndex d (initIndex lmdo xsl) entries).out ++ [closetagIndex]).head?
          = some (xmlDec ++ stylesheetOf xsl ++ sitemapIndexTagStart)
      exact head?_append_some _ _ _ hh
    · show ((runIndex d (initIndex lmdo xsl) entries).out ++ [closetagIndex]).count
          closetagIndex = 1
      simp [List.count_append, hicnt, List.count_cons]
    · intro he
      show (runIndex d (initIndex lmdo xsl) entries).out ++ [closetagIndex]
          = [closetagIndex]
      rw [hie he]
      rfl

/-- C5 counterexample: the index document produced from zero entries is the
bare closing tag `</sitemapindex>` with no XML declaration — `_flush` (lines
84-87) pushes only `closetag`, and the declaration is pushed lazily by
`_transform` (lines 57-64), which never ran. The same lazy-head discipline
makes a zero-item sitemap shard a bare `</urlset>`. -/
theorem c5_empty_document_counterexample :
    ((runIndex (fun s => s) (initIndex false none) []).flushStep).out
        = [closetagIndex]
    ∧ closetagIndex.startsWith xmlDec = false := by
  exact ⟨rfl, by decide⟩

/-- Witness for `c5_wellformed_documents` at countLimit 1 with one written item
then `end()`, and an index over one entry. -/
theorem c5_wellformed_documents_witness :
    (runWriter { freshWriter with countLimit := some 1, byteLimit := none }
        [WOp.write "https://example.com/", WOp.close]).out.head?
      = some preambleChunk
    ∧ ((runIndex (fun s => s) (initIndex false none)
        [IndexItem.str "https://example.com/s1.xml"]).flushStep).out.count
          closetagIndex = 1 := by
  have h := c5_wellformed_documents (some 1) none
      [WOp.write "https://example.com/", WOp.close] (fun s => s) false none
      [IndexItem.str "https://example.com/s1.xml"] _ _ rfl rfl
  exact ⟨h.1.1 (by decide), h.2.2.1⟩


end Sitemap
